import Mathlib

/-!
# Verification development for the ARK-index repository index builder

Shallow embedding of the index-builder pipeline (symbol extraction and ID
generation, incremental change analysis, the artifact writer, the integrity
verifier, test-map construction, subdirectory selection and the builder
orchestration) together with proofs about the embedded definitions.

Conventions of the embedding:
* TypeScript strings are Lean `String`s, numbers are `Nat`/`Int`.
* File-system reads are modelled by an explicit `World` record of oracles
  (stat, content, hash); code that throws returns `Option`.
* JavaScript `Set` objects are modelled as lists with member-checked insertion,
  `Map` objects as insertion-ordered association lists.
* Fields of source records that no claim refers to (symbol signatures,
  docstrings, span end positions and columns) are omitted from the embedded
  records; a comment at each record notes the omission.
-/

namespace ArkIndex

/-- JS `String.prototype.includes`: substring test, embedded as list infix. -/
def strContains (hay needle : String) : Bool :=
  decide (needle.toList <:+: hay.toList)

/-- JS `String.prototype.toLowerCase`, restricted to the ASCII case mapping. -/
def strToLower (s : String) : String :=
  String.mk (s.toList.map Char.toLower)

/-- JS `String.prototype.startsWith`. -/
def strStartsWith (s pre : String) : Bool :=
  decide (pre.toList <+: s.toList)

/-- JS `String.prototype.endsWith`. -/
def strEndsWith (s suf : String) : Bool :=
  decide (suf.toList <:+ s.toList)

/-- Split a character list at a separator (semantics of JS
`String.prototype.split` with a one-character separator: `""` splits to
`[""]`). -/
def splitChars (sep : Char) : List Char → List (List Char)
  | [] => [[]]
  | c :: rest =>
    let acc := splitChars sep rest
    if c = sep then [] :: acc
    else
      match acc with
      | x :: xs => (c :: x) :: xs
      | [] => [[c]]

/-- JS `String.prototype.split` with a one-character separator. -/
def strSplit (s : String) (sep : Char) : List String :=
  (splitChars sep s.toList).map String.mk

/-- JS `String.prototype.slice(n)` / Lean `String.drop`, over characters. -/
def strDrop (s : String) (n : Nat) : String :=
  String.mk (s.toList.drop n)

/-- Drop the last `n` characters. -/
def strDropRight (s : String) (n : Nat) : String :=
  String.mk (s.toList.take (s.toList.length - n))

/-- JS whitespace within one line, plus `'\n'` (for `String.prototype.trim`). -/
def isJsSpaceNL (c : Char) : Bool :=
  c = ' ' || c = '\t' || c = '\r' || c = '\x0b' || c = '\x0c' || c = '\n' || c = ' '

/-- JS `String.prototype.trim` (ASCII whitespace and NBSP). -/
def strTrim (s : String) : String :=
  String.mk (((s.toList.dropWhile isJsSpaceNL).reverse.dropWhile isJsSpaceNL).reverse)

/-- `parts.join('/')` etc.: join with a separator. -/
def joinSep (sep : String) : List String → String
  | [] => ""
  | [x] => x
  | x :: xs => x ++ sep ++ joinSep sep xs

/-- Stable insertion of `x` into a `le`-sorted list: `x` goes before the
first element it compares `le` to, so ties keep their original order. -/
def insertSorted {α : Type} (le : α → α → Bool) (x : α) : List α → List α
  | [] => [x]
  | y :: ys => if le x y then x :: y :: ys else y :: insertSorted le x ys

/-- Stable sort by a boolean total preorder.  JS `Array.prototype.sort` is
specified stable, and for a consistent comparator the stable sorted
permutation is unique, so this models it exactly. -/
def stableSort {α : Type} (le : α → α → Bool) : List α → List α
  | [] => []
  | x :: xs => insertSorted le x (stableSort le xs)

/-! ## `src/lib/index/tests/ids.ts` -/

/-- Test tier, `'fast' | 'slow' | 'integration'` in the source. -/
inductive TestTier where
  | fast
  | slow
  | integration
  deriving DecidableEq, Repr

/-- `generateTestId` from `tests/ids.ts`: `{file}::{name}` when named, else an
`unnamed_test` id from the line number or the per-file counter. -/
def generateTestId (filePath : String) (testName : Option String)
    (line : Option Nat) (unnamedCounter : Nat) : String :=
  match testName with
  | some name => filePath ++ "::" ++ name
  | none =>
    match line with
    | some l => filePath ++ "::unnamed_test:L" ++ toString l
    | none => filePath ++ "::unnamed_test:" ++ toString unnamedCounter

/-- `determineTestTier` from `tests/ids.ts`.  The `lowerName` of a `null` test
name is the empty string, as in the source (`(testName || '').toLowerCase()`). -/
def determineTestTier (filePath : String) (testName : Option String) : TestTier :=
  let lowerPath := strToLower filePath
  let lowerName := strToLower (testName.getD "")
  if strContains lowerPath "integration" || strContains lowerPath "e2e" ||
      strContains lowerName "integration" || strContains lowerName "e2e" then
    .integration
  else if strContains lowerPath "slow" || strContains lowerPath "benchmark" ||
      strContains lowerName "slow" || strContains lowerName "benchmark" ||
      strContains lowerName "perf" then
    .slow
  else
    .fast

/-- The tier rule as the specification words it: `integration` when path or
name contains `integration`/`e2e`, else `slow` when path or name contains
`slow`/`benchmark`/`perf`, else `fast`.  Stated for comparison with
`determineTestTier`. -/
def determineTestTierSpec (filePath : String) (testName : Option String) : TestTier :=
  let lowerPath := strToLower filePath
  let lowerName := strToLower (testName.getD "")
  if strContains lowerPath "integration" || strContains lowerPath "e2e" ||
      strContains lowerName "integration" || strContains lowerName "e2e" then
    .integration
  else if strContains lowerPath "slow" || strContains lowerPath "benchmark" ||
      strContains lowerPath "perf" ||
      strContains lowerName "slow" || strContains lowerName "benchmark" ||
      strContains lowerName "perf" then
    .slow
  else
    .fast

/-! ## JS `Set<string>` model

JavaScript `Set` objects are embedded as lists without duplicates; `add` is a
member-checked append (re-adding an existing element is a no-op, as for `Set`). -/

/-- JS `Set.prototype.has`. -/
def setHas (s : List String) (x : String) : Bool :=
  decide (x ∈ s)

/-- JS `Set.prototype.add`. -/
def setAdd (s : List String) (x : String) : List String :=
  if x ∈ s then s else s ++ [x]

/-! ## Symbol data model (`src/lib/index/types.ts`)

Only the fields some claim refers to are embedded: `span.end`, columns,
`signature`, `docstring_summary`, `top_callers`, `top_callees` and `tags` are
omitted (no claim mentions them); `line` stands for `span.start.line`. -/

/-- `SymbolKind` from `types.ts` (kind names that are Lean keywords are
written with guillemets). -/
inductive SymbolKind where
  | function
  | «class»
  | method
  | interface
  | type
  | enum
  | constant
  | module
  | «variable»
  deriving DecidableEq, Repr

/-- Symbol visibility from `types.ts`. -/
inductive Visibility where
  | «export»
  | public
  | «private»
  | internal
  deriving DecidableEq, Repr

/-- `AdapterSymbol` as produced by the extractors; `visibility` is optional in
the source (`visibility?:`), defaulted to `export` in `adapterSymbolToSymbol`. -/
structure AdapterSym where
  name : String
  kind : SymbolKind
  line : Nat
  visibility : Option Visibility
  deriving DecidableEq, Repr

/-- `Symbol` record as emitted to `symbols.jsonl` (claim-relevant fields). -/
structure Symbol where
  symbol_id : String
  name : String
  kind : SymbolKind
  file : String
  line : Nat
  visibility : Visibility
  deriving DecidableEq, Repr

/-! ## `src/lib/index/symbols.ts`: symbol ID generation -/

/-- `generateSymbolId` from `symbols.ts`.  Returns the generated id together
with the updated `existingIds` set (the source mutates the set in place).
The source distinguishes a `name.includes('.')` case whose branch body is the
same string as the default branch; the `if` is kept to mirror the source. -/
def generateSymbolId (filePath name : String) (line : Nat)
    (existingIds : List String) (container : Option String) :
    String × List String :=
  let baseId :=
    match container with
    | some c => filePath ++ "::" ++ c ++ "." ++ name
    | none =>
      if strContains name "." then filePath ++ "::" ++ name
      else filePath ++ "::" ++ name
  if !setHas existingIds baseId then
    (baseId, setAdd existingIds baseId)
  else
    let fallbackId := baseId ++ ":L" ++ toString line
    (fallbackId, setAdd existingIds fallbackId)

/-- `adapterSymbolToSymbol` from `symbols.ts`: attach a generated id; the
container is always `undefined` at this call site (containers are encoded in
the name). -/
def adapterSymbolToSymbol (adapterSymbol : AdapterSym) (filePath : String)
    (existingIds : List String) : Symbol × List String :=
  let (symbolId, ids) :=
    generateSymbolId filePath adapterSymbol.name adapterSymbol.line existingIds none
  (⟨symbolId, adapterSymbol.name, adapterSymbol.kind, filePath,
    adapterSymbol.line, adapterSymbol.visibility.getD .«export»⟩, ids)

/-- `adapterSymbols.map((s) => adapterSymbolToSymbol(s, filePath, existingIds))`
with the shared mutable set threaded through the map. -/
def adapterSymbolsToSymbols (syms : List AdapterSym) (filePath : String)
    (existingIds : List String) : List Symbol × List String :=
  match syms with
  | [] => ([], existingIds)
  | s :: rest =>
    let (sym, ids) := adapterSymbolToSymbol s filePath existingIds
    let (symsRest, ids') := adapterSymbolsToSymbols rest filePath ids
    (sym :: symsRest, ids')

/-! ## `src/lib/index/extractors/typescript.ts`

The nine anchored regexes of `extractTypescriptSymbols` are embedded as
prefix parsers over the character list of a single line.  `\s` is embedded as
the whitespace characters that can occur inside one line of a `'\n'`-split
string (space, tab, CR, vertical tab, form feed, NBSP), `\w` as
`[A-Za-z0-9_]`.  The optional groups `(async\s+)?` / `(default\s+)?` try the
group first and fall back to the empty match, as regex backtracking does. -/

/-- JS `\w` character class (ASCII word characters). -/
def isWordChar (c : Char) : Bool :=
  c.isAlphanum || c = '_'

/-- JS `\s` restricted to characters possible within one line. -/
def isJsSpace (c : Char) : Bool :=
  c = ' ' || c = '\t' || c = '\r' || c = '\x0b' || c = '\x0c' || c = ' '

/-- Consume a literal token. -/
def eatLit : List Char → List Char → Option (List Char)
  | rest, [] => some rest
  | [], _ :: _ => none
  | c :: rest, t :: ts => if c = t then eatLit rest ts else none

/-- Consume `\s+` (greedy; every follower in these patterns starts with a
non-space character, so maximal munch is exact). -/
def eatWs1 : List Char → Option (List Char)
  | [] => none
  | c :: rest =>
    if isJsSpace c then
      some (rest.dropWhile isJsSpace)
    else none

/-- Capture `\w+` (greedy). -/
def eatWord (l : List Char) : Option (String × List Char) :=
  let w := l.takeWhile isWordChar
  if w.isEmpty then none else some (String.mk w, l.dropWhile isWordChar)

/-- Tail common to all nine patterns: a keyword, `\s+`, then the `\w+`
capture that is the symbol name. -/
def eatKeywordName (kw : String) (l : List Char) : Option String := do
  let l ← eatLit l kw.toList
  let l ← eatWs1 l
  let (name, _) ← eatWord l
  return name

/-- `^export\s+` prefix common to all nine patterns. -/
def eatExport (l : List Char) : Option (List Char) := do
  let l ← eatLit l "export".toList
  eatWs1 l

/-- Optional group such as `(async\s+)?`: try the group, then the remainder;
on failure of the remainder, retry with the group skipped. -/
def optGroup (kw : String) (l : List Char) (k : List Char → Option String) :
    Option String :=
  match (do
      let l' ← eatLit l kw.toList
      let l' ← eatWs1 l'
      k l') with
  | some r => some r
  | none => k l

/-- The pattern table of `extractTypescriptSymbols`, in source order; each
entry returns the captured name group on a match. -/
def tsPatterns : List ((List Char → Option String) × SymbolKind) :=
  [ -- /^export\s+(async\s+)?function\s+(\w+)/
    (fun l => do
      let l ← eatExport l
      optGroup "async" l (eatKeywordName "function"), .function),
    -- /^export\s+function\s+(\w+)/
    (fun l => do
      let l ← eatExport l
      eatKeywordName "function" l, .function),
    -- /^export\s+default\s+(async\s+)?function\s+(\w+)/
    (fun l => do
      let l ← eatExport l
      let l ← eatLit l "default".toList
      let l ← eatWs1 l
      optGroup "async" l (eatKeywordName "function"), .function),
    -- /^export\s+default\s+function\s+(\w+)/
    (fun l => do
      let l ← eatExport l
      let l ← eatLit l "default".toList
      let l ← eatWs1 l
      eatKeywordName "function" l, .function),
    -- /^export\s+(default\s+)?class\s+(\w+)/
    (fun l => do
      let l ← eatExport l
      optGroup "default" l (eatKeywordName "class"), .«class»),
    -- /^export\s+(const|let|var)\s+(\w+)/
    (fun l => do
      let l ← eatExport l
      match eatKeywordName "const" l with
      | some n => some n
      | none =>
        match eatKeywordName "let" l with
        | some n => some n
        | none => eatKeywordName "var" l, .«variable»),
    -- /^export\s+(interface)\s+(\w+)/
    (fun l => do
      let l ← eatExport l
      eatKeywordName "interface" l, .interface),
    -- /^export\s+(type)\s+(\w+)/
    (fun l => do
      let l ← eatExport l
      eatKeywordName "type" l, .type),
    -- /^export\s+(enum)\s+(\w+)/
    (fun l => do
      let l ← eatExport l
      eatKeywordName "enum" l, .enum) ]

/-- First matching pattern on a line (the source `break`s after the first
pattern whose name group is non-empty). -/
def tsFirstMatch (line : String) : Option (String × SymbolKind) :=
  let chars := line.toList
  tsPatterns.findSome? (fun (p, kind) => (p chars).map (·, kind))

/-- Line loop of `extractTypescriptSymbols`; `lineIndex` is the 0-based index
of the head of `lines`, emitted 1-indexed as `span.start.line`. -/
def extractTsLines : List String → Nat → List AdapterSym
  | [], _ => []
  | line :: rest, lineIndex =>
    match tsFirstMatch line with
    | some (name, kind) =>
      ⟨name, kind, lineIndex + 1, some .«export»⟩ :: extractTsLines rest (lineIndex + 1)
    | none => extractTsLines rest (lineIndex + 1)

/-- `extractTypescriptSymbols` from `extractors/typescript.ts`.  The source
also computes a span end, a signature and a docstring per symbol; those fields
are omitted from the embedded record (no claim refers to them).  `filePath` is
unused in the source as well. -/
def extractTypescriptSymbols (content : String) (_filePath : String) :
    List AdapterSym :=
  extractTsLines (strSplit content '\n') 0

/-! ## Filesystem world

File-system access is modelled by oracles.  `statOf`/`contentOf` return
`none` where the source call throws; `hashOf` is the `computeFileHash` digest
of a file's current bytes, deterministic while the filesystem is unchanged
(a read failure inside `computeFileHash` throws in the source and aborts the
build; no claim exercises that path). -/

/-- Result of `fs.statSync`: the fields the index reads.  `mtime` is modelled
by its ISO-8601 rendering (`Date.prototype.toISOString`), the only form the
source compares or stores. -/
structure Stats where
  mtime : String
  size : Nat
  deriving DecidableEq, Repr

/-- The filesystem as seen through one build (keyed by absolute path). -/
structure World where
  statOf : String → Option Stats
  contentOf : String → Option String
  hashOf : String → String

/-- `DiscoveredFile` from `types.ts` (`mtime` as its ISO string). -/
structure DiscoveredFile where
  path : String
  absolutePath : String
  size : Nat
  mtime : String
  deriving DecidableEq, Repr

/-! ## `src/lib/index/hashing.ts` -/

/-- Result type of `quickChangeCheck`. -/
inductive QuickResult where
  | unchanged
  | maybeChanged
  | error
  deriving DecidableEq, Repr

/-- `quickChangeCheck` from `hashing.ts`: stat, then compare ISO mtime and
byte size against the stored values. -/
def quickChangeCheck (w : World) (filePath previousMtime : String)
    (previousSize : Nat) : QuickResult :=
  match w.statOf filePath with
  | none => .error
  | some stats =>
    if stats.mtime = previousMtime ∧ stats.size = previousSize then .unchanged
    else .maybeChanged

/-- `computeFileHash` via the digest oracle. -/
def computeFileHash (w : World) (filePath : String) : String :=
  w.hashOf filePath

/-! ## `src/lib/index/incremental.ts` -/

/-- Schema version constant for `file_hashes.json`. -/
def FILE_HASHES_SCHEMA_VERSION : String := "1.0.0"

/-- `FileHashEntry` from `types.ts`. -/
structure FileHashEntry where
  hash : String
  mtime : String
  size : Nat
  deriving DecidableEq, Repr

/-- `FileHashes` from `types.ts`; the `files` JSON object is modelled as an
insertion-ordered association list with unique keys. -/
structure FileHashes where
  schema_version : String
  git_commit : Option String
  files : List (String × FileHashEntry)
  deriving DecidableEq, Repr

/-- JS object read `files[path]`. -/
def FileHashes.lookup (h : FileHashes) (p : String) : Option FileHashEntry :=
  (h.files.find? (·.1 = p)).map (·.2)

/-- JS object write `obj[key] = value`: replace in place, else append. -/
def objSet (l : List (String × FileHashEntry)) (k : String)
    (v : FileHashEntry) : List (String × FileHashEntry) :=
  if l.any (·.1 = k) then
    l.map (fun kv => if kv.1 = k then (k, v) else kv)
  else l ++ [(k, v)]

/-- Per-file change verdict. -/
inductive ChangeStatus where
  | new
  | changed
  | unchanged
  | deleted
  deriving DecidableEq, Repr

/-- `FileChange` from `types.ts` (`hash?` optional). -/
structure FileChange where
  path : String
  status : ChangeStatus
  hash : Option String
  deriving DecidableEq, Repr

/-- The branch of `analyzeChanges` for one discovered file.  Besides the
`FileChange` it returns the list of absolute paths passed to
`computeFileHash` in that branch, so that "classified without recomputing the
hash" is visible in the model. -/
def analyzeOne (w : World) (previousHashes : Option FileHashes)
    (file : DiscoveredFile) : FileChange × List String :=
  match previousHashes.bind (·.lookup file.path) with
  | none =>
    -- New file: hash computed afresh.
    (⟨file.path, .new, some (computeFileHash w file.absolutePath)⟩,
      [file.absolutePath])
  | some previous =>
    match quickChangeCheck w file.absolutePath previous.mtime previous.size with
    | .unchanged =>
      -- Likely unchanged: keep previous hash, no hash computation.
      (⟨file.path, .unchanged, some previous.hash⟩, [])
    | .error =>
      -- Cannot stat: treat as changed.
      (⟨file.path, .changed, none⟩, [])
    | .maybeChanged =>
      -- mtime or size differs: compute the hash and compare.
      let currentHash := computeFileHash w file.absolutePath
      if currentHash = previous.hash then
        (⟨file.path, .unchanged, some currentHash⟩, [file.absolutePath])
      else
        (⟨file.path, .changed, some currentHash⟩, [file.absolutePath])

/-- The deleted-files scan at the end of `analyzeChanges`. -/
def deletedChanges (previousHashes : Option FileHashes)
    (files : List DiscoveredFile) : List FileChange :=
  match previousHashes with
  | none => []
  | some ph =>
    (ph.files.filter (fun kv => !(files.map (·.path)).contains kv.1)).map
      (fun kv => ⟨kv.1, .deleted, none⟩)

/-- The loop of `analyzeChanges` over the discovered files, accumulating
change records and the hashed absolute paths. -/
def analyzeDiscovered (w : World) (previousHashes : Option FileHashes) :
    List DiscoveredFile → List FileChange × List String
  | [] => ([], [])
  | f :: rest =>
    let (c, h) := analyzeOne w previousHashes f
    let (cs, hs) := analyzeDiscovered w previousHashes rest
    (c :: cs, h ++ hs)

/-- `analyzeChanges` from `incremental.ts`, instrumented: the second
component lists, in call order, the absolute paths handed to
`computeFileHash`.  Verdicts for the discovered files come first (in
discovery order), then the deleted-entry verdicts. -/
def analyzeChangesH (w : World) (files : List DiscoveredFile)
    (previousHashes : Option FileHashes) : List FileChange × List String :=
  let (cs, hs) := analyzeDiscovered w previousHashes files
  (cs ++ deletedChanges previousHashes files, hs)

/-- `analyzeChanges` proper (the instrumentation projected away). -/
def analyzeChanges (w : World) (files : List DiscoveredFile)
    (previousHashes : Option FileHashes) : List FileChange :=
  (analyzeChangesH w files previousHashes).1

/-- `getFilesToIndex` from `incremental.ts`. -/
def getFilesToIndex (changes : List FileChange) : List String :=
  (changes.filter (fun c => c.status = .new || c.status = .changed)).map (·.path)

/-- `getChangedCount` from `incremental.ts`. -/
def getChangedCount (changes : List FileChange) : Nat :=
  (changes.filter (fun c => c.status = .new || c.status = .changed)).length

/-- JS `Map` lookup for a map built with `new Map(files.map(f => [f.path, f]))`:
on duplicate keys the last entry wins. -/
def fileMapGet (files : List DiscoveredFile) (p : String) :
    Option DiscoveredFile :=
  files.reverse.find? (·.path = p)

/-- The loop body of `buildFileHashes` for one change: deleted entries are
dropped; otherwise the ledger entry is written from the discovered file's
stats, reusing the change's hash.  `change.hash || computeFileHash(...)`
recomputes when the hash is absent (or the empty string, which is falsy). -/
def hashStep (w : World) (files : List DiscoveredFile)
    (acc : List (String × FileHashEntry)) (change : FileChange) :
    List (String × FileHashEntry) :=
  if change.status = .deleted then acc
  else
    match fileMapGet files change.path with
    | none => acc
    | some file =>
      let hash :=
        match change.hash with
        | some h => if h = "" then computeFileHash w file.absolutePath else h
        | none => computeFileHash w file.absolutePath
      objSet acc change.path ⟨hash, file.mtime, file.size⟩

/-- `buildFileHashes` from `incremental.ts`. -/
def buildFileHashes (w : World) (changes : List FileChange)
    (files : List DiscoveredFile) (gitCommit : Option String) : FileHashes :=
  ⟨FILE_HASHES_SCHEMA_VERSION, gitCommit, changes.foldl (hashStep w files) []⟩

/-- `loadFileHashes` from `incremental.ts`.  The artifact file is modelled by
its parsed value (`none` = absent or corrupt, both of which the source maps
to `null`); the schema-version gate is embedded as in the source. -/
def loadFileHashes (contents : Option FileHashes) : Option FileHashes :=
  match contents with
  | none => none
  | some hashes =>
    if hashes.schema_version = "" then none
    else
      let major := (strSplit hashes.schema_version '.').headD ""
      let currentMajor := (strSplit FILE_HASHES_SCHEMA_VERSION '.').headD ""
      if major ≠ currentMajor then none
      else some hashes

/-- Append-at-key update of the symbol cache map (JS `Map` insertion order). -/
def cacheUpsert (m : List (String × List Symbol)) (k : String) (v : Symbol) :
    List (String × List Symbol) :=
  if m.any (·.1 = k) then
    m.map (fun kv => if kv.1 = k then (kv.1, kv.2 ++ [v]) else kv)
  else m ++ [(k, [v])]

/-- `loadCachedSymbols` from `incremental.ts`: group the cached symbol stream
by `symbol.file`, preserving encounter order.  The `symbols.jsonl` artifact
is modelled by its list of parsed `Symbol` records (the JSON line round-trip
is assumed faithful). -/
def loadCachedSymbols (symbols : List Symbol) : List (String × List Symbol) :=
  symbols.foldl (fun cache s => cacheUpsert cache s.file s) []

/-- JS `Map.prototype.get` on the symbol cache. -/
def cacheGet (m : List (String × List Symbol)) (k : String) :
    Option (List Symbol) :=
  (m.find? (·.1 = k)).map (·.2)

/-! ## Index metadata (`types.ts`) -/

/-- `meta.status` as persisted by the builder. -/
inductive IndexStatus where
  | success
  | partialStatus
  deriving DecidableEq, Repr

/-- `IndexMeta.stats`. -/
structure MetaStats where
  total_files : Nat
  indexed_files : Nat
  skipped_files : Nat
  total_symbols : Nat
  total_tests : Nat
  index_time_ms : Nat
  deriving DecidableEq, Repr

/-- `IndexMeta.config`, the embedded config snapshot. -/
structure MetaConfig where
  include_globs : List String
  exclude_globs : List String
  max_file_kb : Nat
  respect_gitignore : Bool
  adapters_used : List String
  deriving DecidableEq, Repr

/-- `IndexMeta` (claim-relevant fields; warnings are counted, not stored). -/
structure IndexMeta where
  schema_version : String
  ark_version : String
  generated_at : String
  repo_root : String
  git_commit : Option String
  status : IndexStatus
  stats : MetaStats
  config : MetaConfig
  deriving DecidableEq, Repr

/-! ## `src/lib/index/invalidation.ts` -/

/-- JS default `Array.prototype.sort` on strings: lexicographic.  (The source
sorts UTF-16 code units; the orders agree on the ASCII strings used in
configs.) -/
def jsSortStrings (l : List String) : List String :=
  stableSort (fun x y => decide (x ≤ y)) l

/-- `arraysEqual` from `invalidation.ts`: order-independent equality via
length check plus sorted comparison. -/
def arraysEqual (a b : List String) : Bool :=
  if a.length ≠ b.length then false
  else decide (jsSortStrings a = jsSortStrings b)

/-- The `currentConfig` record assembled in `buildIndex`. -/
structure CurrentConfig where
  includeGlobs : List String
  excludeGlobs : List String
  maxFileKb : Nat
  respectGitignore : Bool
  adapters : List String
  deriving DecidableEq, Repr

/-- `hasConfigChanged` from `invalidation.ts`.  Note that the current
adapter names are compared against the previous `config.adapters_used`. -/
def hasConfigChanged (currentConfig : CurrentConfig)
    (previousMeta : Option IndexMeta) : Bool :=
  match previousMeta with
  | none => false
  | some previousMeta =>
    let prevConfig := previousMeta.config
    if !arraysEqual currentConfig.includeGlobs prevConfig.include_globs then true
    else if !arraysEqual currentConfig.excludeGlobs prevConfig.exclude_globs then true
    else if currentConfig.maxFileKb ≠ prevConfig.max_file_kb then true
    else if currentConfig.respectGitignore ≠ prevConfig.respect_gitignore then true
    else if !arraysEqual currentConfig.adapters prevConfig.adapters_used then true
    else false

/-! ## `verifyIndex` from `invalidation.ts`

The artifact directory is modelled by the state of each of the five files:
missing, unparseable (read or JSON failure), or its parsed value.  For
`symbols.jsonl` the parsed state carries the raw lines of the file (the
`'\n'` split), and a `lineParses` oracle models `JSON.parse` success on a
single line. -/

/-- State of one artifact file as the verifier sees it. -/
inductive FileState (α : Type) where
  | missing
  | unparseable
  | parsed (value : α)
  deriving DecidableEq, Repr

/-- `fs.existsSync` on a modelled file. -/
def FileState.exists : FileState α → Bool
  | .missing => false
  | _ => true

/-- The artifact directory as read by `verifyIndex`. -/
structure VerifyInput where
  metaJson : FileState IndexMeta
  repoMapJson : FileState Unit
  testMapJson : FileState Unit
  fileHashesJson : FileState FileHashes
  symbolsJsonl : FileState (List String)
  lineParses : String → Bool

/-- `VerifyResult` from `invalidation.ts`. -/
structure VerifyResult where
  valid : Bool
  errors : List String
  warnings : List String
  deriving DecidableEq, Repr

/-- The per-line JSON validation loop over the non-blank symbol lines. -/
def symbolLineErrors (lineParses : String → Bool) (symbolLines : List String) :
    List String :=
  (symbolLines.enum.filter (fun li => !lineParses li.2)).map
    (fun li => "symbols.jsonl line " ++ toString (li.1 + 1) ++ " is invalid JSON")

/-- `verifyIndex` from `invalidation.ts`. -/
def verifyIndex (input : VerifyInput) : VerifyResult :=
  -- Presence of the five required files.
  let missing :=
    (if input.metaJson.exists then [] else ["Required file missing: meta.json"]) ++
    (if input.repoMapJson.exists then [] else ["Required file missing: repo_map.json"]) ++
    (if input.symbolsJsonl.exists then [] else ["Required file missing: symbols.jsonl"]) ++
    (if input.testMapJson.exists then [] else ["Required file missing: test_map.json"]) ++
    (if input.fileHashesJson.exists then [] else ["Required file missing: file_hashes.json"])
  if !missing.isEmpty then ⟨false, missing, []⟩
  else
    match input.metaJson with
    | .parsed meta =>
      -- Schema-major check: a warning only.
      let warnings0 :=
        if (strSplit meta.schema_version '.').headD "" ≠ "1" then
          ["Schema version mismatch: " ++ meta.schema_version ++ " (supported: 1.x.x)"]
        else []
      match input.fileHashesJson with
      | .parsed fileHashes =>
        let hashFileCount := fileHashes.files.length
        let warnings1 := warnings0 ++
          (if meta.stats.total_files ≠ hashFileCount then
            ["File count mismatch: meta.json has " ++ toString meta.stats.total_files ++
              ", file_hashes.json has " ++ toString hashFileCount]
          else [])
        let (symErrors, warnings2) :=
          match input.symbolsJsonl with
          | .parsed rawLines =>
            let symbolLines := rawLines.filter (fun l => strTrim l ≠ "")
            (symbolLineErrors input.lineParses symbolLines,
              warnings1 ++
                (if meta.stats.total_symbols ≠ symbolLines.length then
                  ["Symbol count mismatch: meta.json has " ++
                    toString meta.stats.total_symbols ++ ", symbols.jsonl has " ++
                    toString symbolLines.length]
                else []))
          | _ => (["symbols.jsonl unreadable"], warnings1)
        let repoErrors :=
          match input.repoMapJson with
          | .parsed _ => []
          | _ => ["repo_map.json unparseable"]
        let testErrors :=
          match input.testMapJson with
          | .parsed _ => []
          | _ => ["test_map.json unparseable"]
        let errors := symErrors ++ repoErrors ++ testErrors
        ⟨errors.isEmpty, errors, warnings2⟩
      | _ => ⟨false, ["file_hashes.json unparseable"], warnings0⟩
    | _ => ⟨false, ["meta.json unparseable"], []⟩

/-! ## POSIX path helpers (`node:path`)

`path.join(dir, name)` is embedded for the builder's use site: a nonempty
`dir` without trailing slash joined with a slash-free `name`. -/

/-- `path.join(dir, name)` under the modelled precondition. -/
def pathJoin (dir name : String) : String :=
  dir ++ "/" ++ name

/-- Characters of `path.basename`: the suffix after the last `'/'` (the whole
path when it has no slash). -/
def basenameChars (p : List Char) : List Char :=
  (p.reverse.takeWhile (· ≠ '/')).reverse

/-- `path.basename`. -/
def basename (p : String) : String :=
  String.mk (basenameChars p.toList)

/-- `path.dirname`: the prefix before the last `'/'`; `"."` when there is no
slash. -/
def dirname (p : String) : String :=
  match p.toList.reverse.dropWhile (· ≠ '/') with
  | [] => "."
  | _ :: distR => String.mk distR.reverse

/-- `path.extname`: the suffix of the basename from its last `'.'`; empty for
a dotless basename and for a basename whose only `'.'` is leading. -/
def extname (p : String) : String :=
  let b := basenameChars p.toList
  let revB := b.reverse
  if revB.any (· = '.') then
    let ext := revB.takeWhile (· ≠ '.')
    if b.length = ext.length + 1 then ""
    else String.mk ('.' :: ext.reverse)
  else ""

/-! ## `src/lib/index/writer.ts`

The writer's filesystem effects are embedded as an event trace; serialization
(`JSON.stringify(data, null, 2)` and per-symbol `JSON.stringify(s)`) is
abstracted by serializer parameters. -/

/-- One filesystem effect of the writer. -/
inductive FsEvent where
  | write (path content : String)
  | rename (src dst : String)
  deriving DecidableEq, Repr

/-- `writeJsonAtomic` from `writer.ts`: serialize to `{dir}/.{name}.tmp`,
then rename onto `{dir}/{name}`. -/
def writeJsonAtomic {α : Type} (stringify : α → String) (filePath : String)
    (data : α) : List FsEvent :=
  let dir := dirname filePath
  let tempPath := pathJoin dir ("." ++ basename filePath ++ ".tmp")
  [.write tempPath (stringify data), .rename tempPath filePath]

/-- `writeSymbolsAtomic` from `writer.ts`: one JSON object per line, with a
trailing newline exactly when the line list is non-empty. -/
def writeSymbolsAtomic (stringifySymbol : Symbol → String) (filePath : String)
    (symbols : List Symbol) : List FsEvent :=
  let dir := dirname filePath
  let tempPath := pathJoin dir ("." ++ basename filePath ++ ".tmp")
  let lines := symbols.map stringifySymbol
  let content :=
    String.intercalate "\n" lines ++ (if lines.length > 0 then "\n" else "")
  [.write tempPath content, .rename tempPath filePath]

/-- `writeIndexFiles` from `writer.ts`: the five artifacts in fixed order,
`meta.json` last.  `M R T H` are the artifact value types with their
`JSON.stringify` serializers. -/
def writeIndexFiles {M R T H : Type} (jm : M → String) (jr : R → String)
    (jt : T → String) (jh : H → String) (js : Symbol → String)
    (indexDir : String) (meta : M) (repoMap : R) (testMap : T)
    (fileHashes : H) (symbols : List Symbol) : List FsEvent :=
  writeJsonAtomic jh (pathJoin indexDir "file_hashes.json") fileHashes ++
  writeSymbolsAtomic js (pathJoin indexDir "symbols.jsonl") symbols ++
  writeJsonAtomic jr (pathJoin indexDir "repo_map.json") repoMap ++
  writeJsonAtomic jt (pathJoin indexDir "test_map.json") testMap ++
  writeJsonAtomic jm (pathJoin indexDir "meta.json") meta

/-! ## `src/lib/index/filter.ts` (claim-relevant parts) -/

/-- `CODE_EXTENSIONS` from `filter.ts`. -/
def CODE_EXTENSIONS : List String :=
  [".js", ".jsx", ".ts", ".tsx", ".mjs", ".cjs",
   ".py", ".pyi", ".rs", ".go", ".java", ".kt", ".kts",
   ".c", ".h", ".cpp", ".hpp", ".cc", ".hh",
   ".rb", ".php", ".sh", ".bash", ".zsh",
   ".swift", ".scala", ".clj", ".ex", ".exs", ".erl", ".hs"]

/-- `isCodeFile` from `filter.ts`. -/
def isCodeFile (filePath : String) : Bool :=
  CODE_EXTENSIONS.contains (strToLower (extname filePath))

/-- Language name type of `detectLanguage`. -/
inductive Language where
  | typescript
  | javascript
  | python
  | rust
  | go
  | java
  | kotlin
  | c
  | cpp
  | ruby
  | unknown
  deriving DecidableEq, Repr

/-- `detectLanguage` from `filter.ts`: extension-based classification. -/
def detectLanguage (filePath : String) : Language :=
  let ext := strToLower (extname filePath)
  if ext = ".ts" || ext = ".tsx" then .typescript
  else if ext = ".js" || ext = ".jsx" || ext = ".mjs" || ext = ".cjs" then .javascript
  else if ext = ".py" || ext = ".pyi" then .python
  else if ext = ".rs" then .rust
  else if ext = ".go" then .go
  else if ext = ".java" then .java
  else if ext = ".kt" || ext = ".kts" then .kotlin
  else if ext = ".c" || ext = ".h" then .c
  else if ext = ".cpp" || ext = ".hpp" || ext = ".cc" || ext = ".hh" then .cpp
  else if ext = ".rb" then .ruby
  else .unknown

/-! ## `src/lib/index/tests/detection.ts` -/

/-- The anchored `TEST_FILE_PATTERNS` regexes, applied to the basename.  The
first eight match fixed suffixes; `/test_.*\.py$/` (unanchored at the start,
as `RegExp.test` searches anywhere) holds when the basename ends in `.py`
and `test_` occurs somewhere before that suffix. -/
def matchesTestFilePattern (b : String) : Bool :=
  strEndsWith b ".test.js" || strEndsWith b ".test.ts" ||
  strEndsWith b ".test.jsx" || strEndsWith b ".test.tsx" ||
  strEndsWith b ".spec.js" || strEndsWith b ".spec.ts" ||
  strEndsWith b ".spec.jsx" || strEndsWith b ".spec.tsx" ||
  strEndsWith b "_test.js" || strEndsWith b "_test.ts" ||
  strEndsWith b "_test.jsx" || strEndsWith b "_test.tsx" ||
  strEndsWith b "_spec.js" || strEndsWith b "_spec.ts" ||
  strEndsWith b "_spec.jsx" || strEndsWith b "_spec.tsx" ||
  strEndsWith b "_test.py" ||
  (strEndsWith b ".py" && strContains (strDropRight b 3) "test_") ||
  strEndsWith b "_test.go" || strEndsWith b "_test.rs" ||
  strEndsWith b "tests.rs"

/-- `TEST_DIR_PATTERNS` from `tests/detection.ts`. -/
def TEST_DIR_PATTERNS : List String :=
  ["__tests__", "tests", "test", "spec", "specs", "__test__", "__spec__", "__specs__"]

/-- `isTestFile` from `tests/detection.ts`. -/
def isTestFile (filePath : String) : Bool :=
  if !isCodeFile filePath then false
  else
    let b := basename filePath
    let dir := dirname filePath
    matchesTestFilePattern b ||
      ((strSplit dir '/').any (fun part => TEST_DIR_PATTERNS.contains part))

/-- `detectTestFramework` from `tests/detection.ts` (framework names kept as
strings, as in the source union type). -/
def detectTestFramework (filePath : String) : String :=
  let ext := strToLower (extname filePath)
  let b := basename filePath
  if strEndsWith b "_test.go" then "go"
  else if ext = ".rs" then "rust"
  else if ext = ".py" then "pytest"
  else if ext = ".ts" || ext = ".tsx" || ext = ".js" || ext = ".jsx" || ext = ".mjs" then "jest"
  else "unknown"

/-- `findTestFiles` from `tests/detection.ts`. -/
def findTestFiles (files : List DiscoveredFile) : List DiscoveredFile :=
  files.filter (fun file => isTestFile file.path)

/-! ## `src/lib/index/tests/ids.ts` (continued) and `test-map.ts` -/

/-- `ParsedTest` from `tests/parsing.ts` (`line` is always set by the
parsers). -/
structure ParsedTest where
  name : Option String
  line : Nat
  deriving DecidableEq, Repr

/-- `extractTestTags` from `tests/ids.ts`. -/
def extractTestTags (filePath : String) (testName : Option String) : List String :=
  let lowerPath := strToLower filePath
  let lowerName := strToLower (testName.getD "")
  let tagPatterns := ["unit", "integration", "e2e", "smoke", "regression", "api", "ui", "component"]
  tagPatterns.filter (fun tag => strContains lowerPath tag || strContains lowerName tag)

/-- First loop of `extractTestPackage`: scan indexed parts up to (excluding)
the last one, looking for a `node_modules`-style component.  The JS
`parts[i - 1]` read at `i = 0` is `undefined`, i.e. never `node_modules`;
`parts[i + 1]` exists because `i < parts.length - 1`. -/
def pkgScanNodeModules (parts : List String) : List (Nat × String) → Option String
  | [] => none
  | (i, part) :: rest =>
    if i < parts.length - 1 then
      if ["__tests__", "tests", "test", "spec", "specs"].contains part then
        pkgScanNodeModules parts rest
      else if ["src", "lib", "pkg", "internal", "cmd"].contains part then
        pkgScanNodeModules parts rest
      else if 1 ≤ i && (parts.getD (i - 1) "") = "node_modules" then
        if strStartsWith part "@" then
          some (part ++ "/" ++ parts.getD (i + 1) "undefined")
        else some part
      else pkgScanNodeModules parts rest
    else none

/-- Fallback loop of `extractTestPackage`: the first part that is not a
common source/test directory and does not look file-like. -/
def pkgFallback : List String → Option String
  | [] => none
  | part :: rest =>
    if !(["src", "__tests__", "tests", "test"].contains part) && !strContains part "." then
      some part
    else pkgFallback rest

/-- `extractTestPackage` from `tests/ids.ts`. -/
def extractTestPackage (filePath : String) : Option String :=
  let parts := strSplit filePath '/'
  match pkgScanNodeModules parts parts.enum with
  | some pkg => some pkg
  | none => pkgFallback parts

/-- `TestEntry` from `types.ts` (`files_touched` is always empty in baseline
mode and is kept as a constant field). -/
structure TestEntry where
  test_id : String
  file : String
  name : Option String
  tags : List String
  tier : TestTier
  files_touched : List String
  packages : List String
  deriving DecidableEq, Repr

/-- The per-test loop of `buildTestEntries`, threading the 1-based counter of
unnamed tests. -/
def entriesForTests (filePath : String) (pkg : Option String) :
    List ParsedTest → Nat → List TestEntry
  | [], _ => []
  | test :: rest, unnamedCounter =>
    let counter := if test.name.isNone then unnamedCounter + 1 else unnamedCounter
    { test_id := generateTestId filePath test.name (some test.line) counter,
      file := filePath,
      name := test.name,
      tags := extractTestTags filePath test.name,
      tier := determineTestTier filePath test.name,
      files_touched := [],
      packages := pkg.elim [] (fun p => [p]) } :: entriesForTests filePath pkg rest counter

/-- `buildTestEntries` from `test-map.ts`.  `parse` abstracts
`parseTestsFromFile` (file I/O plus the framework-specific regex parsers);
its arguments are the relative path, the absolute path and the detected
framework, and the claim proved about `buildTestEntries` holds for every
parser behaviour. -/
def buildTestEntries (parse : String → String → String → List ParsedTest)
    (testFiles : List DiscoveredFile) : List TestEntry :=
  testFiles.flatMap (fun file =>
    let framework := detectTestFramework file.path
    let parsedTests := parse file.path file.absolutePath framework
    let pkg := extractTestPackage file.path
    if parsedTests.isEmpty then
      [{ test_id := generateTestId file.path none none 1,
         file := file.path,
         name := none,
         tags := extractTestTags file.path none,
         tier := determineTestTier file.path none,
         files_touched := [],
         packages := pkg.elim [] (fun p => [p]) }]
    else
      entriesForTests file.path pkg parsedTests 0)

/-- `buildTestMap` from `test-map.ts` (the `tests` list; `coverage_edges` is
constantly empty in baseline mode). -/
def buildTestMap (parse : String → String → String → List ParsedTest)
    (files : List DiscoveredFile) : List TestEntry :=
  buildTestEntries parse (findTestFiles files)

/-! ## `src/lib/index/modules.ts`: `detectSubdirectories` -/

/-- `IMPORTANT_SUBDIRS` from `modules.ts`. -/
def IMPORTANT_SUBDIRS : List String :=
  ["components", "lib", "hooks", "utils", "services", "handlers", "actions",
   "api", "store", "data", "types", "models", "views", "controllers",
   "middleware", "routes", "pages", "features", "modules", "core",
   "common", "shared"]

/-- `SUBDIR_DESCRIPTIONS` from `modules.ts` (a JS record; absent keys read as
`undefined`). -/
def SUBDIR_DESCRIPTIONS : List (String × String) :=
  [("components", "React/UI components"), ("lib", "Utility libraries"),
   ("hooks", "React hooks"), ("utils", "Utility functions"),
   ("services", "Service layer"), ("handlers", "Request/event handlers"),
   ("actions", "Action creators/handlers"), ("api", "API layer"),
   ("store", "State management"), ("data", "Data definitions and content"),
   ("types", "Type definitions"), ("models", "Data models"),
   ("views", "View components"), ("controllers", "Controllers"),
   ("middleware", "Middleware functions"), ("routes", "Route definitions"),
   ("pages", "Page components"), ("features", "Feature modules"),
   ("modules", "Application modules"), ("core", "Core functionality"),
   ("common", "Common/shared code"), ("shared", "Shared utilities")]

/-- `MIN_CODE_FILES_FOR_SUBDIR` from `modules.ts`. -/
def MIN_CODE_FILES_FOR_SUBDIR : Nat := 3

/-- `MAX_SUBDIRS_PER_MODULE` from `modules.ts`. -/
def MAX_SUBDIRS_PER_MODULE : Nat := 10

/-- `LARGE_DIR_THRESHOLD` from `modules.ts`. -/
def LARGE_DIR_THRESHOLD : Nat := 20

/-- `SubDirectory` from `types.ts` (`key_files` stays empty at this stage). -/
structure SubDirectory where
  name : String
  path : String
  fileCount : Nat
  codeFileCount : Nat
  key_files : List String
  description : Option String
  deriving DecidableEq, Repr

/-- The per-directory record of `detectSubdirectories`' `subdirMap`. -/
structure DirData where
  files : List DiscoveredFile
  codeFiles : List DiscoveredFile
  isImportant : Bool
  depth : Nat
  deriving DecidableEq, Repr

/-- JS `Map` get on the subdir map. -/
def dirMapGet (m : List (String × DirData)) (k : String) : Option DirData :=
  (m.find? (·.1 = k)).map (·.2)

/-- Register one file at one directory level: create the entry if new (with
the important-name flag and depth), then push the file (and, for code files,
into `codeFiles`). -/
def dirMapAdd (m : List (String × DirData)) (k : String) (name : String)
    (d : Nat) (file : DiscoveredFile) : List (String × DirData) :=
  let m :=
    if m.any (·.1 = k) then m
    else m ++ [(k, ⟨[], [], IMPORTANT_SUBDIRS.contains name, d⟩)]
  m.map (fun kv =>
    if kv.1 = k then
      (kv.1,
        { kv.2 with
          files := kv.2.files ++ [file],
          codeFiles :=
            if isCodeFile file.path then kv.2.codeFiles ++ [file]
            else kv.2.codeFiles })
    else kv)

/-- The inner level loop for one file: levels `i = 0 .. min(parts.length-1,
depth) - 1`, skipping paths that are themselves modules. -/
def addFileLevels (modulePaths : List String) (normalizedModulePath : String)
    (depth : Nat) (file : DiscoveredFile) (parts : List String)
    (m : List (String × DirData)) : List (String × DirData) :=
  (List.range (min (parts.length - 1) depth)).foldl
    (fun m i =>
      let subdirRelPath := joinSep "/" (parts.take (i + 1))
      let subdirFullPath :=
        if normalizedModulePath = "" then subdirRelPath
        else normalizedModulePath ++ "/" ++ subdirRelPath
      let subdirName := parts.getD i ""
      if modulePaths.contains subdirFullPath then m
      else dirMapAdd m subdirFullPath subdirName (i + 1) file)
    m

/-- Large-important-directory promotion pass: iterating the map in insertion
order, a parent with ≥ `LARGE_DIR_THRESHOLD` code files that is important
marks each strict descendant important when its basename is an important
name or it has ≥ 6 code files.  The source mutates `isImportant` in place,
so later parents observe earlier promotions; the fold mirrors that. -/
def promoteNested (m : List (String × DirData)) : List (String × DirData) :=
  (m.map (·.1)).foldl
    (fun m parentPath =>
      match dirMapGet m parentPath with
      | none => m
      | some parentData =>
        if parentData.codeFiles.length ≥ LARGE_DIR_THRESHOLD ∧ parentData.isImportant then
          m.map (fun kv =>
            if strStartsWith kv.1 (parentPath ++ "/") ∧ kv.1 ≠ parentPath then
              let childName := basename kv.1
              if IMPORTANT_SUBDIRS.contains childName ∨
                  kv.2.codeFiles.length ≥ MIN_CODE_FILES_FOR_SUBDIR * 2 then
                (kv.1, { kv.2 with isImportant := true })
              else kv
            else kv)
        else m)
    m

/-- A scored candidate subdirectory. -/
structure Candidate where
  subdir : SubDirectory
  score : Int
  hasImportantChildren : Bool
  deriving DecidableEq, Repr

/-- Candidate construction and scoring over the (promoted) subdir map. -/
def buildCandidates (m : List (String × DirData)) : List Candidate :=
  m.filterMap (fun kv =>
    let subdirPath := kv.1
    let data := kv.2
    let subdirName := basename subdirPath
    let hasEnoughCode := data.codeFiles.length ≥ MIN_CODE_FILES_FOR_SUBDIR
    if !data.isImportant ∧ !hasEnoughCode then none
    else
      let hasImportantChildren := m.any (fun other =>
        strStartsWith other.1 (subdirPath ++ "/") ∧ other.1 ≠ subdirPath ∧
        other.2.isImportant ∧ other.2.codeFiles.length ≥ MIN_CODE_FILES_FOR_SUBDIR)
      let score : Int :=
        (data.codeFiles.length : Int) +
        (if data.isImportant then 50 else 0) +
        (if hasImportantChildren ∧ data.codeFiles.length > LARGE_DIR_THRESHOLD then -30 else 0) +
        (if data.depth > 1 then 10 else 0)
      some
        { subdir :=
            { name := subdirName,
              path := subdirPath,
              fileCount := data.files.length,
              codeFileCount := data.codeFiles.length,
              key_files := [],
              description := (SUBDIR_DESCRIPTIONS.find? (·.1 = subdirName)).map (·.2) },
          score := score,
          hasImportantChildren := hasImportantChildren })

/-- `candidates.sort((a, b) => b.score - a.score)`: stable descending sort by
score (JS `Array.prototype.sort` is stable). -/
def sortCandidates (candidates : List Candidate) : List Candidate :=
  stableSort (fun a b => decide (b.score ≤ a.score)) candidates

/-- The `directFileCounts` pass: a candidate's code-file count minus the
code-file counts of every strict-descendant candidate, clamped at 0. -/
def directFileCounts (candidates : List Candidate) : List (String × Nat) :=
  candidates.map (fun candidate =>
    let childPaths := (candidates.filter (fun c =>
      strStartsWith c.subdir.path (candidate.subdir.path ++ "/") ∧
      c.subdir.path ≠ candidate.subdir.path)).map (·.subdir.path)
    let directCount : Int :=
      childPaths.foldl
        (fun acc childPath =>
          match candidates.find? (·.subdir.path = childPath) with
          | some childCandidate => acc - (childCandidate.subdir.codeFileCount : Int)
          | none => acc)
        (candidate.subdir.codeFileCount : Int)
    (candidate.subdir.path, (max 0 directCount).toNat))

/-- `directFileCounts.get(path) || 0`. -/
def directCountOf (dfc : List (String × Nat)) (p : String) : Nat :=
  ((dfc.find? (·.1 = p)).map (·.2)).getD 0

/-- The selection loop of `detectSubdirectories`: prefer specific children,
keep a parent past a selected child only with enough direct files, keep a
child under a selected parent only when described or large enough, stop at
`MAX_SUBDIRS_PER_MODULE`.  A large candidate with important children that
survives the direct-file gate has its `codeFileCount` overwritten by its
direct count (the source mutates the candidate in place). -/
def selectLoop (dfc : List (String × Nat)) :
    List Candidate → List String → List SubDirectory → List SubDirectory
  | [], _, result => result
  | candidate :: rest, selectedPaths, result =>
    let hasSelectedChild := selectedPaths.any
      (fun selectedPath => strStartsWith selectedPath (candidate.subdir.path ++ "/"))
    let directCount := directCountOf dfc candidate.subdir.path
    let isLargeWithImportantChildren :=
      candidate.hasImportantChildren ∧
        candidate.subdir.codeFileCount > LARGE_DIR_THRESHOLD
    if isLargeWithImportantChildren ∧ directCount < 10 then
      selectLoop dfc rest selectedPaths result
    else
      let subdir :=
        if isLargeWithImportantChildren then
          { candidate.subdir with codeFileCount := directCount }
        else candidate.subdir
      if hasSelectedChild ∧ directCount < MIN_CODE_FILES_FOR_SUBDIR then
        selectLoop dfc rest selectedPaths result
      else
        let hasSelectedParent := selectedPaths.any
          (fun selectedPath => strStartsWith subdir.path (selectedPath ++ "/"))
        if hasSelectedParent ∧ subdir.description.isNone ∧ subdir.codeFileCount < 10 then
          selectLoop dfc rest selectedPaths result
        else
          let result' := result ++ [subdir]
          if result'.length ≥ MAX_SUBDIRS_PER_MODULE then result'
          else selectLoop dfc rest (selectedPaths ++ [subdir.path]) result'

/-- Final sort of the selection: code-file count descending, then path
ascending (`localeCompare` modelled as code-point order). -/
def sortSelected (result : List SubDirectory) : List SubDirectory :=
  stableSort (fun a b =>
    decide (b.codeFileCount < a.codeFileCount ∨
      (a.codeFileCount = b.codeFileCount ∧ a.path ≤ b.path))) result

/-- `detectSubdirectories` from `modules.ts`. -/
def detectSubdirectories (files : List DiscoveredFile) (modulePath : String)
    (modulePaths : List String := []) (depth : Nat := 3) : List SubDirectory :=
  let normalizedModulePath := if modulePath = "." then "" else modulePath
  let moduleFiles := files.filter (fun file =>
    if normalizedModulePath = "" then true
    else strStartsWith file.path (normalizedModulePath ++ "/"))
  let subdirMap := moduleFiles.foldl
    (fun m file =>
      let relPath :=
        if normalizedModulePath = "" then file.path
        else strDrop file.path (normalizedModulePath.length + 1)
      addFileLevels modulePaths normalizedModulePath depth file
        (strSplit relPath '/') m)
    []
  let subdirMap := promoteNested subdirMap
  let candidates := sortCandidates (buildCandidates subdirMap)
  let dfc := directFileCounts candidates
  sortSelected (selectLoop dfc candidates [] [])

/-! ## `src/lib/index/symbols.ts` / `builder.ts`: extraction and orchestration

Adapters are modelled as pure deterministic behaviours: `available` stands
for `isAvailable()` (a throwing adapter behaves as unavailable and falls
through, per the `catch` in `extractSymbolsFromFile`) and `extract` for
`extractSymbols(absolutePath, content)`.  The baseline extractor
(`extractSymbolsBaseline`'s language dispatch) is a parameter `baseline`
taking the content and the relative path; concrete runs instantiate it with
the embedded TypeScript extractor dispatch. -/

/-- One entry of the adapter sequence. -/
structure AdapterModel where
  name : String
  available : Bool
  extract : String → String → List AdapterSym

/-- The adapter loop of `extractSymbolsFromFile`: the first adapter that is
available and returns a non-empty list pre-empts the baseline. -/
def tryAdapters (absolutePath content : String) :
    List AdapterModel → Option (String × List AdapterSym)
  | [] => none
  | adapter :: rest =>
    if adapter.available then
      let adapterSymbols := adapter.extract absolutePath content
      if adapterSymbols.isEmpty then tryAdapters absolutePath content rest
      else some (adapter.name, adapterSymbols)
    else tryAdapters absolutePath content rest

/-- The adapter-symbol list `extractSymbolsFromFile` settles on for a file
(before ID assignment), together with the adapter used.  `none` content means
the read threw. -/
def chooseExtraction (w : World)
    (baseline : String → String → List AdapterSym)
    (filePath absolutePath : String) (adapters : List AdapterModel) :
    Option (Option String × List AdapterSym) :=
  match w.contentOf absolutePath with
  | none => none
  | some content =>
    match tryAdapters absolutePath content adapters with
    | some (name, adapterSymbols) => some (some name, adapterSymbols)
    | none => some (none, baseline content filePath)

/-- `extractSymbolsFromFile` from `symbols.ts`: symbols with assigned IDs,
the adapter used, an error for an unreadable file, and the updated ID set.
(The baseline extractors are total in the model, so the extraction `catch`
branch is dead here.) -/
def extractSymbolsFromFile (w : World)
    (baseline : String → String → List AdapterSym)
    (filePath absolutePath : String) (adapters : List AdapterModel)
    (existingIds : List String) :
    (List Symbol × Option String × Option String) × List String :=
  match chooseExtraction w baseline filePath absolutePath adapters with
  | none => (([], none, some "Failed to read file"), existingIds)
  | some (adapterUsed, adapterSymbols) =>
    let (symbols, ids) := adapterSymbolsToSymbols adapterSymbols filePath existingIds
    ((symbols, adapterUsed, none), ids)

/-- `extractSymbolsBaseline` from `symbols.ts`, with the TypeScript/JavaScript
extractor embedded; the Python, Rust and Go extractors are not embedded (no
claim evaluates them) and their branches return the empty list here, as the
`default` branch does for unsupported languages.  Claims that run this
dispatch concretely use only `.ts` inputs, where it coincides with the
source. -/
def extractSymbolsBaselineTJ (content : String) (filePath : String) :
    List AdapterSym :=
  match detectLanguage filePath with
  | .typescript | .javascript => extractTypescriptSymbols content filePath
  | _ => []

/-- State threaded through the symbol loop of `buildIndex`:
`allSymbols`, `existingIds`, `adaptersUsed` and the extraction warnings
(file paths with messages). -/
structure LoopState where
  allSymbols : List Symbol
  existingIds : List String
  adaptersUsed : List String
  extractionWarnings : List String
  deriving Repr

/-- One iteration of the symbol loop of `buildIndex` (lines 200–235): reuse
cached symbols for files not in the to-index set, otherwise extract. -/
def symbolStep (w : World) (baseline : String → String → List AdapterSym)
    (adapters : List AdapterModel) (discovery : List DiscoveredFile)
    (filesToIndex : List String) (cachedSymbols : List (String × List Symbol))
    (st : LoopState) (file : DiscoveredFile) : LoopState :=
  match fileMapGet discovery file.path with
  | none => st
  | some _ =>
    let needsExtraction := filesToIndex.contains file.path
    match if !needsExtraction then cacheGet cachedSymbols file.path else none with
    | some cached =>
      { st with
        allSymbols := st.allSymbols ++ cached,
        existingIds := cached.foldl (fun ids sym => setAdd ids sym.symbol_id) st.existingIds }
    | none =>
      let ((symbols, adapterUsed, error), ids) :=
        extractSymbolsFromFile w baseline file.path file.absolutePath adapters st.existingIds
      { allSymbols := st.allSymbols ++ symbols,
        existingIds := ids,
        adaptersUsed :=
          match adapterUsed with
          | some name => setAdd st.adaptersUsed name
          | none => st.adaptersUsed,
        extractionWarnings :=
          match error with
          | some _ => st.extractionWarnings ++ [file.path]
          | none => st.extractionWarnings }

/-- The symbol loop of `buildIndex` over the discovered files. -/
def symbolLoop (w : World) (baseline : String → String → List AdapterSym)
    (adapters : List AdapterModel) (discovery : List DiscoveredFile)
    (filesToIndex : List String) (cachedSymbols : List (String × List Symbol)) :
    List DiscoveredFile → LoopState → LoopState
  | [], st => st
  | file :: rest, st =>
    symbolLoop w baseline adapters discovery filesToIndex cachedSymbols rest
      (symbolStep w baseline adapters discovery filesToIndex cachedSymbols st file)

/-- Builder options (`IndexBuildOptions`), with the adapter behaviours and
the pure parts of the external interfaces the orchestration consumes. -/
structure BuildOptions where
  force : Bool
  repoRoot : String
  includeGlobs : List String
  excludeGlobs : List String
  maxFileKb : Nat
  respectGitignore : Bool
  adapters : List AdapterModel

/-- The artifact directory contents consumed and produced by a build:
`meta.json` and `file_hashes.json` as parsed values (`none` = absent or
corrupt) and `symbols.jsonl` as its parsed symbol records (the JSON
round-trip is assumed faithful). -/
structure IndexState where
  meta : Option IndexMeta
  fileHashes : Option FileHashes
  symbols : List Symbol

/-- Result of one modelled build. -/
structure BuildResultM where
  files_changed : Nat
  incremental : Bool
  symbols : List Symbol
  meta : IndexMeta
  fileHashes : FileHashes

/-! `buildIndex` from `builder.ts` on its success path, over a world, the
previous artifact state and the discovery result.  Modelled outside:
the ripgrep prerequisite, `discoverFiles` (the external walker; `discovery`
and `skipped` are its outcome, constant across runs on an unchanged
filesystem), `getGitCommit` (`gitCommit`), the wall clock (`generatedAt`;
`index_time_ms` is reported as 0) and the test-name parser oracle `parse`
(file I/O of `parseTestsFromFile`).  The write step publishes the new
artifact state, which `nextState` below exposes for a subsequent run.
The builder's `let`-chain is embedded as named definitions (one per local
of `buildIndex`) assembled by `buildIndexModel`. -/

/-- The `currentConfig` record of `buildIndex`. -/
def effectiveConfig (opts : BuildOptions) : CurrentConfig :=
  ⟨opts.includeGlobs, opts.excludeGlobs, opts.maxFileKb,
    opts.respectGitignore, opts.adapters.map (·.name)⟩

/-- `previousHashes` of `buildIndex` (`force` skips the load). -/
def previousHashesOf (opts : BuildOptions) (prev : IndexState) :
    Option FileHashes :=
  if opts.force then none else loadFileHashes prev.fileHashes

/-- `configChanged` of `buildIndex`. -/
def configChangedOf (opts : BuildOptions) (prev : IndexState) : Bool :=
  hasConfigChanged (effectiveConfig opts) prev.meta

/-- `forceFullIndex` of `buildIndex`. -/
def forceFullOf (opts : BuildOptions) (prev : IndexState) : Bool :=
  opts.force || configChangedOf opts prev

/-- `changes` of `buildIndex`. -/
def changesOf (opts : BuildOptions) (w : World)
    (discovery : List DiscoveredFile) (prev : IndexState) : List FileChange :=
  if forceFullOf opts prev then discovery.map (fun f => ⟨f.path, .new, none⟩)
  else analyzeChanges w discovery (previousHashesOf opts prev)

/-- `filesToIndex` of `buildIndex`. -/
def filesToIndexOf (opts : BuildOptions) (w : World)
    (discovery : List DiscoveredFile) (prev : IndexState) : List String :=
  if forceFullOf opts prev then discovery.map (·.path)
  else getFilesToIndex (changesOf opts w discovery prev)

/-- `filesChanged` of `buildIndex`. -/
def filesChangedOf (opts : BuildOptions) (w : World)
    (discovery : List DiscoveredFile) (prev : IndexState) : Nat :=
  if forceFullOf opts prev then discovery.length
  else getChangedCount (changesOf opts w discovery prev)

/-- `isIncremental` of `buildIndex`. -/
def isIncrementalOf (opts : BuildOptions) (prev : IndexState) : Bool :=
  !forceFullOf opts prev && (previousHashesOf opts prev).isSome

/-- `cachedSymbols` of `buildIndex`. -/
def cachedSymbolsOf (opts : BuildOptions) (prev : IndexState) :
    List (String × List Symbol) :=
  if isIncrementalOf opts prev then loadCachedSymbols prev.symbols else []

/-- The final state of the symbol loop of `buildIndex`. -/
def loopStateOf (opts : BuildOptions) (w : World)
    (baseline : String → String → List AdapterSym)
    (discovery : List DiscoveredFile) (prev : IndexState) : LoopState :=
  symbolLoop w baseline opts.adapters discovery
    (filesToIndexOf opts w discovery prev) (cachedSymbolsOf opts prev)
    discovery ⟨[], [], [], []⟩

def buildIndexModel (opts : BuildOptions) (w : World)
    (baseline : String → String → List AdapterSym)
    (parse : String → String → String → List ParsedTest)
    (discovery : List DiscoveredFile) (skipped : List (String × String))
    (gitCommit : Option String) (generatedAt : String)
    (prev : IndexState) : BuildResultM :=
  let st := loopStateOf opts w baseline discovery prev
  let testEntries := buildTestMap parse discovery
  let fileHashes := buildFileHashes w (changesOf opts w discovery prev)
    discovery gitCommit
  let warningsCount := skipped.length + st.extractionWarnings.length
  let meta : IndexMeta :=
    { schema_version := "1.0.0",
      ark_version := "0.1.0",
      generated_at := generatedAt,
      repo_root := opts.repoRoot,
      git_commit := gitCommit,
      status := if warningsCount > 0 then .partialStatus else .success,
      stats :=
        { total_files := discovery.length,
          indexed_files := discovery.length - skipped.length,
          skipped_files := skipped.length,
          total_symbols := st.allSymbols.length,
          total_tests := testEntries.length,
          index_time_ms := 0 },
      config :=
        { include_globs := opts.includeGlobs,
          exclude_globs := opts.excludeGlobs,
          max_file_kb := opts.maxFileKb,
          respect_gitignore := opts.respectGitignore,
          adapters_used := st.adaptersUsed } }
  { files_changed := filesChangedOf opts w discovery prev,
    incremental := isIncrementalOf opts prev,
    symbols := st.allSymbols,
    meta := meta,
    fileHashes := fileHashes }

/-- The artifact state published by a successful build (what `writeIndexFiles`
leaves for the next run). -/
def BuildResultM.nextState (r : BuildResultM) : IndexState :=
  ⟨some r.meta, some r.fileHashes, r.symbols⟩

/-! ## Concrete scenario inputs -/

/-- The concrete file of the spec's TS scenario: `export function f() {}` on
line 1 and `export class C {` on line 3 with the method `f() {}` on line 5. -/
def c6Content : String :=
  "export function f() \x7b\x7d\n\nexport class C \x7b\n\n  f() \x7b\x7d\n\x7d"

/-- The symbol records the extraction-plus-ID pipeline produces for the
scenario file, projected to `(symbol_id, kind, line)`. -/
def c6Pipeline : List (String × SymbolKind × Nat) :=
  ((adapterSymbolsToSymbols (extractTypescriptSymbols c6Content "src/a.ts")
    "src/a.ts" []).1).map (fun s => (s.symbol_id, s.kind, s.line))

/-- A repository slice with a parent directory `p` (8 direct code files) and
an important child `p/lib` (3 code files). -/
def c8Files : List DiscoveredFile :=
  [⟨"p/lib/a.ts", "/r/p/lib/a.ts", 10, "t"⟩,
   ⟨"p/lib/b.ts", "/r/p/lib/b.ts", 10, "t"⟩,
   ⟨"p/lib/c.ts", "/r/p/lib/c.ts", 10, "t"⟩,
   ⟨"p/d1.ts", "/r/p/d1.ts", 10, "t"⟩,
   ⟨"p/d2.ts", "/r/p/d2.ts", 10, "t"⟩,
   ⟨"p/d3.ts", "/r/p/d3.ts", 10, "t"⟩,
   ⟨"p/d4.ts", "/r/p/d4.ts", 10, "t"⟩,
   ⟨"p/d5.ts", "/r/p/d5.ts", 10, "t"⟩,
   ⟨"p/d6.ts", "/r/p/d6.ts", 10, "t"⟩,
   ⟨"p/d7.ts", "/r/p/d7.ts", 10, "t"⟩,
   ⟨"p/d8.ts", "/r/p/d8.ts", 10, "t"⟩]

/-- A one-file world: `a.ts` with content `"x"`, fixed stats and digest. -/
def oneFileWorld : World :=
  { statOf := fun p =>
      if p = "/r/a.ts" then some ⟨"2024-01-01T00:00:00.000Z", 1⟩ else none,
    contentOf := fun p => if p = "/r/a.ts" then some "x" else none,
    hashOf := fun _ => "sha256:aa" }

/-- Discovery result of the one-file world. -/
def oneFileDiscovery : List DiscoveredFile :=
  [⟨"a.ts", "/r/a.ts", 1, "2024-01-01T00:00:00.000Z"⟩]

/-- An adapter that reports three symbols named `n`, the last two sharing
line 5 (spans and names an adapter is free to produce). -/
def dupAdapter : AdapterModel :=
  { name := "dup", available := true,
    extract := fun _ _ =>
      [⟨"n", .function, 1, some .«export»⟩,
       ⟨"n", .function, 5, some .«export»⟩,
       ⟨"n", .function, 5, some .«export»⟩] }

/-- A configured adapter that is never available, so it is never recorded in
`meta.config.adapters_used`. -/
def unusedAdapter : AdapterModel :=
  { name := "A", available := false, extract := fun _ _ => [] }

/-- Builder options over a given adapter list (no force, plain config). -/
def mkOpts (adapters : List AdapterModel) : BuildOptions :=
  ⟨false, "/r", ["**/*"], [], 1024, true, adapters⟩

/-- The trivial test-name parser oracle (no test files in these worlds). -/
def noParse : String → String → String → List ParsedTest := fun _ _ _ => []

/-- A build of the one-file world with the duplicate-reporting adapter,
starting from an empty artifact directory. -/
def c1Build : BuildResultM :=
  buildIndexModel (mkOpts [dupAdapter]) oneFileWorld extractSymbolsBaselineTJ
    noParse oneFileDiscovery [] none "t1" ⟨none, none, []⟩

/-- First build of the one-file world with the never-available adapter
configured. -/
def c4Run1 : BuildResultM :=
  buildIndexModel (mkOpts [unusedAdapter]) oneFileWorld extractSymbolsBaselineTJ
    noParse oneFileDiscovery [] none "t1" ⟨none, none, []⟩

/-- Second build, identical options and world, from the first build's
artifacts. -/
def c4Run2 : BuildResultM :=
  buildIndexModel (mkOpts [unusedAdapter]) oneFileWorld extractSymbolsBaselineTJ
    noParse oneFileDiscovery [] none "t2" c4Run1.nextState

/-! ## Claim theorems -/

/-- **C1** (code bug).  The claim says every `symbol_id` in the emitted
symbol list is unique for every build, including builds where distinct
extracted symbols share both name and line.  The code violates this:
`generateSymbolId`'s collision fallback appends `:L{line}` without checking
that the fallback itself is fresh, so a build whose adapter extracts three
symbols named `n` at lines 1, 5 and 5 of `a.ts` emits `a.ts::n:L5` twice.
This contradicts the function's own stated purpose ("Generate a unique
symbol ID") and the builder's uniqueness set. -/
theorem c1_symbol_id_duplicate :
    c1Build.symbols.map (·.symbol_id) = ["a.ts::n", "a.ts::n:L5", "a.ts::n:L5"] ∧
    ¬ (c1Build.symbols.map (·.symbol_id)).Nodup := by
  decide

/-- **C4** (counterexample).  Running the modelled builder twice on an
unchanged one-file world with a configured adapter that is never used:
`hasConfigChanged` compares the configured adapter names against the
previous `adapters_used` (empty), so the second run performs a full
re-index and reports `files_changed = 1`, not `0` — refuting the claim for
non-empty configured adapter lists. -/
theorem c4_rebuild_counterexample :
    c4Run1.meta.config.adapters_used = [] ∧
    (mkOpts [unusedAdapter]).adapters.map (·.name) = ["A"] ∧
    c4Run2.files_changed = 1 ∧ c4Run2.incremental = false := by
  decide

/-- **C6** (counterexample).  On the scenario file the baseline TS extractor
emits only the exported function `f` (line 1) and the exported class `C`
(line 3); no method symbol `src/a.ts::C.f:L5` is produced (the extractor has
no method pattern), so the claimed three-symbol output is wrong. -/
theorem c6_scenario_counterexample :
    c6Pipeline ≠
      [("src/a.ts::f", .function, 1), ("src/a.ts::C", .«class», 3),
       ("src/a.ts::C.f:L5", .method, 5)] ∧
    c6Pipeline.length = 2 := by
  decide

/-- **C6** (amended).  Extraction followed by ID generation on the scenario
file yields exactly `{symbol_id: "src/a.ts::f", kind: function, line: 1}` and
`{symbol_id: "src/a.ts::C", kind: class, line: 3}`; the class method on
line 5 is not extracted. -/
theorem c6_scenario_amended :
    c6Pipeline =
      [("src/a.ts::f", .function, 1), ("src/a.ts::C", .«class», 3)] := by
  decide

/-- **C7** (counterexample).  A test whose *path* contains `perf` (and none
of the other markers) is classified `fast` by `determineTestTier`, while the
claim requires `slow`: the source checks `perf` only against the test name. -/
theorem c7_tier_counterexample :
    determineTestTier "perf/a.test.ts" (some "adds numbers") = .fast ∧
    determineTestTierSpec "perf/a.test.ts" (some "adds numbers") = .slow := by
  decide

/-- **C8** (counterexample).  In the `c8Files` slice the child `p/lib` is
selected first (score 63) and the parent `p` is nevertheless kept, although
`p` has only 8 direct (non-nested) code files — below the claimed threshold
of 10.  The code's keep-threshold past a selected child is 3 direct files;
the 10-file rule applies only to large parents with important children. -/
theorem c8_subdir_counterexample :
    (detectSubdirectories c8Files "." [] 3).map (·.path) = ["p", "p/lib"] ∧
    ((c8Files.filter (fun f => strStartsWith f.path "p/" &&
        !(strContains (strDrop f.path 2) "/") && isCodeFile f.path)).length = 8) := by
  decide

/-- **C7** (amended).  `determineTestTier` returns `integration` exactly when
the lower-cased path or name contains `integration` or `e2e`; otherwise
`slow` exactly when the *path* contains `slow` or `benchmark`, or the *name*
contains `slow`, `benchmark`, or `perf` (a path containing only `perf` does
not make a test slow); otherwise `fast`. -/
theorem c7_tier_amended (filePath : String) (testName : Option String) :
    (determineTestTier filePath testName = .integration ↔
      (strContains (strToLower filePath) "integration" ||
        strContains (strToLower filePath) "e2e" ||
        strContains (strToLower (testName.getD "")) "integration" ||
        strContains (strToLower (testName.getD "")) "e2e") = true) ∧
    (determineTestTier filePath testName = .slow ↔
      ((strContains (strToLower filePath) "integration" ||
        strContains (strToLower filePath) "e2e" ||
        strContains (strToLower (testName.getD "")) "integration" ||
        strContains (strToLower (testName.getD "")) "e2e") = false ∧
       (strContains (strToLower filePath) "slow" ||
        strContains (strToLower filePath) "benchmark" ||
        strContains (strToLower (testName.getD "")) "slow" ||
        strContains (strToLower (testName.getD "")) "benchmark" ||
        strContains (strToLower (testName.getD "")) "perf") = true)) ∧
    (determineTestTier filePath testName = .fast ↔
      ((strContains (strToLower filePath) "integration" ||
        strContains (strToLower filePath) "e2e" ||
        strContains (strToLower (testName.getD "")) "integration" ||
        strContains (strToLower (testName.getD "")) "e2e") = false ∧
       (strContains (strToLower filePath) "slow" ||
        strContains (strToLower filePath) "benchmark" ||
        strContains (strToLower (testName.getD "")) "slow" ||
        strContains (strToLower (testName.getD "")) "benchmark" ||
        strContains (strToLower (testName.getD "")) "perf") = false)) := by
  simp only [determineTestTier]
  cases h1 : (strContains (strToLower filePath) "integration" ||
      strContains (strToLower filePath) "e2e" ||
      strContains (strToLower (testName.getD "")) "integration" ||
      strContains (strToLower (testName.getD "")) "e2e") with
  | true => simp [h1]
  | false =>
    cases h2 : (strContains (strToLower filePath) "slow" ||
        strContains (strToLower filePath) "benchmark" ||
        strContains (strToLower (testName.getD "")) "slow" ||
        strContains (strToLower (testName.getD "")) "benchmark" ||
        strContains (strToLower (testName.getD "")) "perf") with
    | true => simp [h1, h2]
    | false => simp [h1, h2]

/-! ### C10: invariants of the baseline TS/JS extractor -/

/-- Every symbol emitted from a line suffix starting at index `idx` has a
line number strictly greater than `idx`. -/
theorem extractTsLines_line_gt (lines : List String) :
    ∀ (idx : Nat) (s : AdapterSym), s ∈ extractTsLines lines idx → idx < s.line := by
  induction lines with
  | nil => intro idx s hs; simp [extractTsLines] at hs
  | cons l rest ih =>
    intro idx s hs
    cases h : tsFirstMatch l with
    | none =>
      simp only [extractTsLines, h] at hs
      exact Nat.lt_of_succ_lt (ih (idx + 1) s hs)
    | some nk =>
      obtain ⟨name, kind⟩ := nk
      simp only [extractTsLines, h, List.mem_cons] at hs
      rcases hs with hs | hs
      · subst hs; exact Nat.lt_succ_self idx
      · exact Nat.lt_of_succ_lt (ih (idx + 1) s hs)

/-- Every symbol emitted by the line loop is marked `export`. -/
theorem extractTsLines_visibility (lines : List String) :
    ∀ (idx : Nat) (s : AdapterSym), s ∈ extractTsLines lines idx →
      s.visibility = some .«export» := by
  induction lines with
  | nil => intro idx s hs; simp [extractTsLines] at hs
  | cons l rest ih =>
    intro idx s hs
    cases h : tsFirstMatch l with
    | none => simp only [extractTsLines, h] at hs; exact ih (idx + 1) s hs
    | some nk =>
      obtain ⟨name, kind⟩ := nk
      simp only [extractTsLines, h, List.mem_cons] at hs
      rcases hs with hs | hs
      · subst hs; rfl
      · exact ih (idx + 1) s hs

/-- Every emitted symbol carries the name and kind of the *first* matching
pattern of its source line. -/
theorem extractTsLines_firstMatch (lines : List String) :
    ∀ (idx : Nat) (s : AdapterSym), s ∈ extractTsLines lines idx →
      tsFirstMatch (lines.getD (s.line - (idx + 1)) "") = some (s.name, s.kind) := by
  induction lines with
  | nil => intro idx s hs; simp [extractTsLines] at hs
  | cons l rest ih =>
    intro idx s hs
    cases h : tsFirstMatch l with
    | none =>
      simp only [extractTsLines, h] at hs
      have hgt := extractTsLines_line_gt rest (idx + 1) s hs
      have := ih (idx + 1) s hs
      have harith : s.line - (idx + 1) = (s.line - (idx + 2)) + 1 := by omega
      rw [harith]
      simpa using this
    | some nk =>
      obtain ⟨name, kind⟩ := nk
      simp only [extractTsLines, h, List.mem_cons] at hs
      rcases hs with hs | hs
      · subst hs
        simpa using h
      · have hgt := extractTsLines_line_gt rest (idx + 1) s hs
        have := ih (idx + 1) s hs
        have harith : s.line - (idx + 1) = (s.line - (idx + 2)) + 1 := by omega
        rw [harith]
        simpa using this

/-- The emitted line numbers are strictly increasing. -/
theorem extractTsLines_pairwise (lines : List String) :
    ∀ (idx : Nat),
      (extractTsLines lines idx).Pairwise (fun a b => a.line < b.line) := by
  induction lines with
  | nil => intro idx; simp [extractTsLines]
  | cons l rest ih =>
    intro idx
    cases h : tsFirstMatch l with
    | none => simp only [extractTsLines, h]; exact ih (idx + 1)
    | some nk =>
      obtain ⟨name, kind⟩ := nk
      simp only [extractTsLines, h]
      refine List.Pairwise.cons ?_ (ih (idx + 1))
      intro b hb
      exact extractTsLines_line_gt rest (idx + 1) b hb

/-- **C10** (confirmed).  For every input, the baseline TS/JS extractor emits
at most one symbol per source line — the emitted start lines are strictly
increasing, and each emitted symbol records exactly the first matching
pattern of its line (the remaining patterns are skipped) — and every emitted
symbol has visibility `export`. -/
theorem c10_ts_extractor_invariants (content filePath : String) :
    (extractTypescriptSymbols content filePath).Pairwise (fun a b => a.line < b.line) ∧
    (∀ s ∈ extractTypescriptSymbols content filePath,
      s.visibility = some .«export») ∧
    (∀ s ∈ extractTypescriptSymbols content filePath,
      tsFirstMatch ((strSplit content '\n').getD (s.line - 1) "") =
        some (s.name, s.kind)) := by
  refine ⟨extractTsLines_pairwise _ 0, ?_, ?_⟩
  · intro s hs
    exact extractTsLines_visibility _ 0 s hs
  · intro s hs
    simpa using extractTsLines_firstMatch (strSplit content '\n') 0 s hs

/-! ### C2: the writer's trace -/

/-- `takeWhile` stops exactly at the first failing element after a satisfying
prefix. -/
theorem takeWhile_all_append {α : Type} (p : α → Bool) (l₁ : List α) (x : α)
    (l₂ : List α) (h : ∀ c ∈ l₁, p c = true) (hx : p x = false) :
    (l₁ ++ x :: l₂).takeWhile p = l₁ := by
  induction l₁ with
  | nil => simp [List.takeWhile, hx]
  | cons a l ih =>
    have ha : p a = true := h a (List.mem_cons_self a l)
    simp only [List.cons_append, List.takeWhile, ha]
    exact congrArg (a :: ·) (ih (fun c hc => h c (List.mem_cons_of_mem a hc)))

/-- `dropWhile` lands on the first failing element after a satisfying
prefix. -/
theorem dropWhile_all_append {α : Type} (p : α → Bool) (l₁ : List α) (x : α)
    (l₂ : List α) (h : ∀ c ∈ l₁, p c = true) (hx : p x = false) :
    (l₁ ++ x :: l₂).dropWhile p = x :: l₂ := by
  induction l₁ with
  | nil => simp [List.dropWhile, hx]
  | cons a l ih =>
    have ha : p a = true := h a (List.mem_cons_self a l)
    simp only [List.cons_append, List.dropWhile, ha]
    exact ih (fun c hc => h c (List.mem_cons_of_mem a hc))

/-- Character list of a `dir ++ "/" ++ name` join. -/
theorem toList_join (d n : String) :
    (d ++ "/" ++ n).toList = d.toList ++ '/' :: n.toList := by
  show (d ++ "/" ++ n).data = d.data ++ '/' :: n.data
  simp [String.data_append]

/-- `basename` of a join whose second component is slash-free. -/
theorem basename_join (d n : String) (h : ∀ c ∈ n.toList, c ≠ '/') :
    basename (d ++ "/" ++ n) = n := by
  unfold basename basenameChars
  rw [toList_join]
  have hrev : (d.toList ++ '/' :: n.toList).reverse =
      n.toList.reverse ++ '/' :: d.toList.reverse := by
    simp
  rw [hrev, takeWhile_all_append]
  · simp [String.mk]
  · intro c hc
    simpa using h c (List.mem_reverse.mp hc)
  · simp

/-- `dirname` of a join whose second component is slash-free. -/
theorem dirname_join (d n : String) (h : ∀ c ∈ n.toList, c ≠ '/') :
    dirname (d ++ "/" ++ n) = d := by
  unfold dirname
  rw [toList_join]
  have hrev : (d.toList ++ '/' :: n.toList).reverse =
      n.toList.reverse ++ '/' :: d.toList.reverse := by
    simp
  rw [hrev, dropWhile_all_append]
  · simp [String.mk]
  · intro c hc
    simpa using h c (List.mem_reverse.mp hc)
  · simp

/-- **C2** (confirmed).  `writeIndexFiles` performs exactly ten filesystem
effects: for each artifact, in the fixed order `file_hashes.json`,
`symbols.jsonl`, `repo_map.json`, `test_map.json` and then `meta.json` last,
a serialization to `{dir}/.{name}.tmp` followed by a rename to
`{dir}/{name}`; the symbols artifact is one serialized symbol per line with
a trailing newline exactly when the symbol list is non-empty. -/
theorem c2_write_order_atomic {M R T H : Type} (jm : M → String)
    (jr : R → String) (jt : T → String) (jh : H → String)
    (js : Symbol → String) (indexDir : String) (meta : M) (repoMap : R)
    (testMap : T) (fileHashes : H) (symbols : List Symbol) :
    writeIndexFiles jm jr jt jh js indexDir meta repoMap testMap fileHashes
        symbols =
      [.write (indexDir ++ "/" ++ ".file_hashes.json.tmp") (jh fileHashes),
       .rename (indexDir ++ "/" ++ ".file_hashes.json.tmp")
         (indexDir ++ "/" ++ "file_hashes.json"),
       .write (indexDir ++ "/" ++ ".symbols.jsonl.tmp")
         (String.intercalate "\n" (symbols.map js) ++
           (if (symbols.map js).length > 0 then "\n" else "")),
       .rename (indexDir ++ "/" ++ ".symbols.jsonl.tmp")
         (indexDir ++ "/" ++ "symbols.jsonl"),
       .write (indexDir ++ "/" ++ ".repo_map.json.tmp") (jr repoMap),
       .rename (indexDir ++ "/" ++ ".repo_map.json.tmp")
         (indexDir ++ "/" ++ "repo_map.json"),
       .write (indexDir ++ "/" ++ ".test_map.json.tmp") (jt testMap),
       .rename (indexDir ++ "/" ++ ".test_map.json.tmp")
         (indexDir ++ "/" ++ "test_map.json"),
       .write (indexDir ++ "/" ++ ".meta.json.tmp") (jm meta),
       .rename (indexDir ++ "/" ++ ".meta.json.tmp")
         (indexDir ++ "/" ++ "meta.json")] := by
  simp only [writeIndexFiles, writeJsonAtomic, writeSymbolsAtomic, pathJoin]
  rw [dirname_join indexDir "file_hashes.json" (by decide),
    basename_join indexDir "file_hashes.json" (by decide),
    dirname_join indexDir "symbols.jsonl" (by decide),
    basename_join indexDir "symbols.jsonl" (by decide),
    dirname_join indexDir "repo_map.json" (by decide),
    basename_join indexDir "repo_map.json" (by decide),
    dirname_join indexDir "test_map.json" (by decide),
    basename_join indexDir "test_map.json" (by decide),
    dirname_join indexDir "meta.json" (by decide),
    basename_join indexDir "meta.json" (by decide)]
  have h1 : ("." ++ "file_hashes.json" ++ ".tmp" : String) = ".file_hashes.json.tmp" := by decide
  have h2 : ("." ++ "symbols.jsonl" ++ ".tmp" : String) = ".symbols.jsonl.tmp" := by decide
  have h3 : ("." ++ "repo_map.json" ++ ".tmp" : String) = ".repo_map.json.tmp" := by decide
  have h4 : ("." ++ "test_map.json" ++ ".tmp" : String) = ".test_map.json.tmp" := by decide
  have h5 : ("." ++ "meta.json" ++ ".tmp" : String) = ".meta.json.tmp" := by decide
  rw [h1, h2, h3, h4, h5]
  simp

/-! ### C9: stability of named test IDs -/

/-- Every entry built by the per-test loop carries the file path, and named
entries get the plain `{file}::{name}` id regardless of line and counter. -/
theorem entriesForTests_spec (fp : String) (pkg : Option String) :
    ∀ (tests : List ParsedTest) (counter : Nat) (e : TestEntry),
      e ∈ entriesForTests fp pkg tests counter →
      e.file = fp ∧ ∀ n, e.name = some n → e.test_id = fp ++ "::" ++ n := by
  intro tests
  induction tests with
  | nil => intro counter e he; simp [entriesForTests] at he
  | cons test rest ih =>
    intro counter e he
    simp only [entriesForTests, List.mem_cons] at he
    rcases he with he | he
    · subst he
      refine ⟨rfl, ?_⟩
      intro n hn
      simp only at hn
      simp [generateTestId, hn]
    · exact ih _ e he

/-- Every named entry of `buildTestEntries` has id `{file}::{name}`. -/
theorem buildTestEntries_named_id
    (parse : String → String → String → List ParsedTest)
    (testFiles : List DiscoveredFile) :
    ∀ (e : TestEntry), e ∈ buildTestEntries parse testFiles →
      ∀ n, e.name = some n → e.test_id = e.file ++ "::" ++ n := by
  intro e he n hn
  simp only [buildTestEntries, List.mem_flatMap] at he
  obtain ⟨file, _, he⟩ := he
  by_cases hemp : (parse file.path file.absolutePath (detectTestFramework file.path)).isEmpty
  · simp only [hemp, if_true] at he
    simp only [List.mem_singleton] at he
    subst he
    simp at hn
  · simp only [hemp, if_false] at he
    obtain ⟨hfile, hid⟩ := entriesForTests_spec file.path
      (extractTestPackage file.path) _ 0 e he
    rw [hfile]
    exact hid n hn

/-- **C9** (confirmed).  `generateTestId` for a named test depends only on
the file path and the name — no collision suffix is ever applied — and
consequently any two parsed tests of the same file with the same non-null
name produce `TestEntry` records with identical `test_id`s. -/
theorem c9_test_id_stable :
    (∀ (filePath n : String) (line : Option Nat) (counter : Nat),
      generateTestId filePath (some n) line counter = filePath ++ "::" ++ n) ∧
    (∀ (parse : String → String → String → List ParsedTest)
      (testFiles : List DiscoveredFile) (e₁ e₂ : TestEntry) (n : String),
      e₁ ∈ buildTestEntries parse testFiles →
      e₂ ∈ buildTestEntries parse testFiles →
      e₁.file = e₂.file → e₁.name = some n → e₂.name = some n →
      e₁.test_id = e₂.test_id) := by
  constructor
  · intro filePath n line counter
    rfl
  · intro parse testFiles e₁ e₂ n h₁ h₂ hfile hn₁ hn₂
    rw [buildTestEntries_named_id parse testFiles e₁ h₁ n hn₁,
      buildTestEntries_named_id parse testFiles e₂ h₂ n hn₂, hfile]

/-- Parser oracle reporting two tests that share the name `t`. -/
def c9Parse : String → String → String → List ParsedTest :=
  fun _ _ _ => [⟨some "t", 1⟩, ⟨some "t", 5⟩]

/-- A discovered test file. -/
def c9File : DiscoveredFile := ⟨"a/f.test.ts", "/r/a/f.test.ts", 1, "m"⟩

/-- The entry both parsed tests of `c9File` produce. -/
def c9Entry : TestEntry :=
  ⟨"a/f.test.ts::t", "a/f.test.ts", some "t", [], .fast, [], ["a"]⟩

/-- Witness for C9: both same-named tests of the concrete file yield entries
in `buildTestEntries`, and the theorem gives them identical ids. -/
theorem c9_test_id_stable_witness :
    c9Entry ∈ buildTestEntries c9Parse [c9File] ∧
    c9Entry.test_id = c9Entry.test_id :=
  ⟨by decide,
    c9_test_id_stable.2 c9Parse [c9File] c9Entry c9Entry "t" (by decide)
      (by decide) rfl (by decide) (by decide)⟩

/-! ### C5: the verifier's schema-major check -/

/-- A parsed meta record with major schema version 2. -/
def c5Meta : IndexMeta :=
  ⟨"2.0.0", "0.1.0", "t", "/r", none, .success, ⟨0, 0, 0, 0, 0, 0⟩,
    ⟨[], [], 1024, true, []⟩⟩

/-- An artifact set in which all five files are present and parseable but
`meta.schema_version` has major `2`. -/
def c5Input : VerifyInput :=
  ⟨.parsed c5Meta, .parsed (), .parsed (), .parsed ⟨"1.0.0", none, []⟩,
    .parsed [], fun _ => true⟩

/-- **C5** (counterexample).  On an artifact set whose five files are all
present and parseable but whose `meta.schema_version` is `2.0.0`, the
verifier returns `valid = true` with an empty error list — the schema-major
mismatch is only a warning, refuting the claim that it forces
`valid = false`. -/
theorem c5_schema_major_counterexample :
    (strSplit "2.0.0" '.').headD "" ≠ "1" ∧
    verifyIndex c5Input =
      ⟨true, [], ["Schema version mismatch: 2.0.0 (supported: 1.x.x)"]⟩ := by
  decide

/-- Element-wise predicates transfer between a list and its enumeration. -/
theorem forall_enumFrom {α : Type} (p : α → Prop) :
    ∀ (L : List α) (n : Nat), (∀ x ∈ L.enumFrom n, p x.2) ↔ (∀ l ∈ L, p l) := by
  intro L
  induction L with
  | nil => intro n; simp
  | cons a l ih =>
    intro n
    simp only [List.enumFrom, List.mem_cons, forall_eq_or_imp]
    constructor
    · rintro ⟨ha, hl⟩
      exact ⟨ha, (ih (n + 1)).mp hl⟩
    · rintro ⟨ha, hl⟩
      exact ⟨ha, (ih (n + 1)).mpr hl⟩

/-- **C5** (amended).  `valid` is true exactly when the error list is empty,
but the schema-major check is *not* among the validity checks: on an
artifact set with all five files present and parseable, a major other than
`1` produces the version-mismatch warning while `valid` is determined solely
by the per-line parseability of `symbols.jsonl`. -/
theorem c5_schema_major_amended :
    (∀ i : VerifyInput, (verifyIndex i).valid = (verifyIndex i).errors.isEmpty) ∧
    (∀ (m : IndexMeta) (fh : FileHashes) (rawLines : List String)
      (lp : String → Bool),
      ((strSplit m.schema_version '.').headD "" ≠ "1" →
        ("Schema version mismatch: " ++ m.schema_version ++ " (supported: 1.x.x)")
          ∈ (verifyIndex ⟨.parsed m, .parsed (), .parsed (), .parsed fh,
              .parsed rawLines, lp⟩).warnings) ∧
      ((verifyIndex ⟨.parsed m, .parsed (), .parsed (), .parsed fh,
          .parsed rawLines, lp⟩).valid = true ↔
        ∀ l ∈ rawLines.filter (fun l => strTrim l ≠ ""), lp l = true)) := by
  constructor
  · intro i
    rcases i with ⟨mj, rj, tj, fj, sj, lp⟩
    cases mj <;> cases rj <;> cases tj <;> cases fj <;> cases sj <;>
      simp [verifyIndex, FileState.exists]
  · intro m fh rawLines lp
    constructor
    · intro hmajor
      simp only [verifyIndex, FileState.exists]
      rw [if_neg (by simp)]
      rw [if_pos hmajor]
      simp
    · simp only [verifyIndex, FileState.exists]
      rw [if_neg (by simp)]
      simp only [symbolLineErrors, List.append_nil, List.isEmpty_iff,
        List.map_eq_nil_iff, List.filter_eq_nil_iff, List.enum]
      rw [forall_enumFrom (fun l => ¬ (!lp l) = true) _ 0]
      simp

/-- Witness for C5: on the concrete mismatched artifact set the amended
theorem places the mismatch message among the warnings. -/
theorem c5_schema_major_amended_witness :
    ("Schema version mismatch: 2.0.0 (supported: 1.x.x)")
      ∈ (verifyIndex c5Input).warnings :=
  (c5_schema_major_amended.2 c5Meta ⟨"1.0.0", none, []⟩ [] (fun _ => true)).1
    (by decide)

/-! ### C3: change analysis -/

/-- The discovered-file loop of `analyzeChanges` is the per-file verdict map,
with the hashed paths concatenated in call order. -/
theorem analyzeDiscovered_eq (w : World) (ph : Option FileHashes) :
    ∀ fs : List DiscoveredFile,
      analyzeDiscovered w ph fs =
        (fs.map (fun f => (analyzeOne w ph f).1),
         fs.flatMap (fun f => (analyzeOne w ph f).2)) := by
  intro fs
  induction fs with
  | nil => rfl
  | cons f rest ih =>
    simp only [analyzeDiscovered, ih, List.map_cons, List.flatMap_cons]

/-- **C3** (confirmed).  `analyzeChanges` emits, for each discovered file in
order, the verdict of `analyzeOne`, followed by the deleted-entry verdicts;
for a file with a prior ledger entry it returns `unchanged` with the stored
hash and *no* hash computation exactly on a quick-check hit (stored mtime
string and size both equal the current stats); on a quick-check miss it
computes the hash and classifies `unchanged` iff the hash equals the stored
one, `changed` otherwise; on stat failure it classifies `changed`; and every
prior entry with no discovered file yields a `deleted` verdict. -/
theorem c3_analyze_changes :
    (∀ (w : World) (files : List DiscoveredFile) (ph : Option FileHashes),
      analyzeChangesH w files ph =
        (files.map (fun f => (analyzeOne w ph f).1) ++ deletedChanges ph files,
         files.flatMap (fun f => (analyzeOne w ph f).2))) ∧
    (∀ (w : World) (ph : FileHashes) (f : DiscoveredFile) (e : FileHashEntry)
      (st : Stats),
      ph.lookup f.path = some e →
      w.statOf f.absolutePath = some st →
      (st.mtime = e.mtime ∧ st.size = e.size →
        analyzeOne w (some ph) f = (⟨f.path, .unchanged, some e.hash⟩, [])) ∧
      (¬ (st.mtime = e.mtime ∧ st.size = e.size) →
        analyzeOne w (some ph) f =
          (⟨f.path,
            if computeFileHash w f.absolutePath = e.hash then .unchanged
            else .changed,
            some (computeFileHash w f.absolutePath)⟩, [f.absolutePath]))) ∧
    (∀ (w : World) (ph : FileHashes) (f : DiscoveredFile) (e : FileHashEntry),
      ph.lookup f.path = some e →
      w.statOf f.absolutePath = none →
      analyzeOne w (some ph) f = (⟨f.path, .changed, none⟩, [])) ∧
    (∀ (w : World) (files : List DiscoveredFile) (ph : FileHashes)
      (kv : String × FileHashEntry),
      kv ∈ ph.files → kv.1 ∉ files.map (·.path) →
      (⟨kv.1, .deleted, none⟩ : FileChange) ∈
        (analyzeChangesH w files (some ph)).1) := by
  refine ⟨?_, ?_, ?_, ?_⟩
  · intro w files ph
    simp only [analyzeChangesH, analyzeDiscovered_eq]
  · intro w ph f e st hlook hstat
    constructor
    · intro hhit
      simp only [analyzeOne, Option.some_bind, hlook, quickChangeCheck, hstat]
      rw [if_pos hhit]
    · intro hmiss
      simp only [analyzeOne, Option.some_bind, hlook, quickChangeCheck, hstat]
      rw [if_neg hmiss]
      by_cases hc : computeFileHash w f.absolutePath = e.hash
      · simp [hc]
      · simp [hc]
  · intro w ph f e hlook hstat
    simp only [analyzeOne, Option.some_bind, hlook, quickChangeCheck, hstat]
  · intro w files ph kv hmem hnot
    simp only [analyzeChangesH, analyzeDiscovered_eq]
    refine List.mem_append_right _ ?_
    simp only [deletedChanges, List.mem_map, List.mem_filter]
    refine ⟨kv, ⟨hmem, ?_⟩, rfl⟩
    simpa using hnot

/-- A prior ledger matching the one-file world's current stats. -/
def c3Ledger : FileHashes :=
  ⟨"1.0.0", none, [("a.ts", ⟨"sha256:aa", "2024-01-01T00:00:00.000Z", 1⟩)]⟩

/-- Witness for C3: in the one-file world with a matching ledger entry, the
quick-check hit classifies `unchanged` with the stored hash and hashes
nothing. -/
theorem c3_analyze_changes_witness :
    analyzeOne oneFileWorld (some c3Ledger)
        ⟨"a.ts", "/r/a.ts", 1, "2024-01-01T00:00:00.000Z"⟩ =
      (⟨"a.ts", .unchanged, some "sha256:aa"⟩, []) :=
  (c3_analyze_changes.2.1 oneFileWorld c3Ledger
      ⟨"a.ts", "/r/a.ts", 1, "2024-01-01T00:00:00.000Z"⟩
      ⟨"sha256:aa", "2024-01-01T00:00:00.000Z", 1⟩
      ⟨"2024-01-01T00:00:00.000Z", 1⟩ (by decide) (by decide)).1 (by decide)

/-! ### C8: the subdirectory selection rules -/

/-- Stable insertion grows the length by one. -/
theorem insertSorted_length {α : Type} (le : α → α → Bool) (x : α) :
    ∀ l : List α, (insertSorted le x l).length = l.length + 1 := by
  intro l
  induction l with
  | nil => rfl
  | cons y ys ih =>
    simp only [insertSorted]
    split
    · simp
    · simp [ih]

/-- Stable sorting preserves the length. -/
theorem stableSort_length {α : Type} (le : α → α → Bool) :
    ∀ l : List α, (stableSort le l).length = l.length := by
  intro l
  induction l with
  | nil => rfl
  | cons x xs ih => simp [stableSort, insertSorted_length, ih]

/-- The selection loop never grows the result past the cap. -/
theorem selectLoop_length_le (dfc : List (String × Nat)) :
    ∀ (cands : List Candidate) (sel : List String) (res : List SubDirectory),
      res.length < MAX_SUBDIRS_PER_MODULE →
      (selectLoop dfc cands sel res).length ≤ MAX_SUBDIRS_PER_MODULE := by
  intro cands
  induction cands with
  | nil => intro sel res h; exact Nat.le_of_lt h
  | cons c rest ih =>
    intro sel res h
    simp only [selectLoop]
    repeat' split
    all_goals
      first
        | exact ih _ _ h
        | (simp only [List.length_append, List.length_cons, List.length_nil]
           omega)
        | (rename_i hlen
           refine ih _ _ ?_
           simp only [List.length_append, List.length_cons, List.length_nil,
             ge_iff_le, not_le] at hlen ⊢
           omega)

/-- **C8** (amended).  The returned subdirectory list never has more than 10
entries; and in the selection loop, once a strict descendant of a candidate
has already been selected, the candidate is kept only when its direct
(non-nested) code-file count is at least 3 (`MIN_CODE_FILES_FOR_SUBDIR`) —
the ≥ 10 direct-file rule applies instead to candidates with more than 20
code files that have important children, which are dropped below 10 direct
files whether or not a child was selected. -/
theorem c8_subdir_amended :
    (∀ (files : List DiscoveredFile) (modulePath : String)
      (modulePaths : List String) (depth : Nat),
      (detectSubdirectories files modulePath modulePaths depth).length ≤
        MAX_SUBDIRS_PER_MODULE) ∧
    (∀ (dfc : List (String × Nat)) (c : Candidate) (rest : List Candidate)
      (selectedPaths : List String) (result : List SubDirectory),
      (∃ sp ∈ selectedPaths, strStartsWith sp (c.subdir.path ++ "/") = true) →
      directCountOf dfc c.subdir.path < MIN_CODE_FILES_FOR_SUBDIR →
      selectLoop dfc (c :: rest) selectedPaths result =
        selectLoop dfc rest selectedPaths result) ∧
    (∀ (dfc : List (String × Nat)) (c : Candidate) (rest : List Candidate)
      (selectedPaths : List String) (result : List SubDirectory),
      c.hasImportantChildren = true →
      c.subdir.codeFileCount > LARGE_DIR_THRESHOLD →
      directCountOf dfc c.subdir.path < 10 →
      selectLoop dfc (c :: rest) selectedPaths result =
        selectLoop dfc rest selectedPaths result) := by
  refine ⟨?_, ?_, ?_⟩
  · intro files modulePath modulePaths depth
    simp only [detectSubdirectories, sortSelected, stableSort_length]
    exact selectLoop_length_le _ _ _ _ (by decide)
  · intro dfc c rest selectedPaths result hsel hdir
    obtain ⟨sp, hsp, hstart⟩ := hsel
    have hchild : selectedPaths.any
        (fun selectedPath => strStartsWith selectedPath (c.subdir.path ++ "/")) = true :=
      List.any_eq_true.mpr ⟨sp, hsp, hstart⟩
    simp only [selectLoop]
    split_ifs with h1 h2 h3 h4 <;>
      first
        | rfl
        | exact absurd ⟨hchild, hdir⟩ h2
  · intro dfc c rest selectedPaths result himp hlarge hdir
    simp only [selectLoop]
    split_ifs with h1 h2 h3 h4 <;>
      first
        | rfl
        | exact absurd ⟨⟨himp, hlarge⟩, hdir⟩ h1

/-- Witness for C8: the cap on the concrete `c8Files` module, and a concrete
selection step that drops a parent with 1 direct code file once its child
`p/lib` is selected. -/
theorem c8_subdir_amended_witness :
    (detectSubdirectories c8Files "." [] 3).length ≤ MAX_SUBDIRS_PER_MODULE ∧
    selectLoop [("p", 1)] [⟨⟨"p", "p", 5, 5, [], none⟩, 5, false⟩] ["p/lib"] [] =
      selectLoop [("p", 1)] [] ["p/lib"] [] :=
  ⟨c8_subdir_amended.1 c8Files "." [] 3,
    c8_subdir_amended.2.1 [("p", 1)] ⟨⟨"p", "p", 5, 5, [], none⟩, 5, false⟩ []
      ["p/lib"] [] ⟨"p/lib", by decide, by decide⟩ (by decide)⟩

/-! ### C4: idempotence of an unchanged rebuild -/

/-- `arraysEqual` is reflexive. -/
theorem arraysEqual_self (a : List String) : arraysEqual a a = true := by
  simp [arraysEqual]

/-- `hasConfigChanged` reports no change when the scalar fields agree and the
two array comparisons succeed. -/
theorem hasConfigChanged_false (c : CurrentConfig) (m : IndexMeta)
    (hin : m.config.include_globs = c.includeGlobs)
    (hex : m.config.exclude_globs = c.excludeGlobs)
    (hkb : m.config.max_file_kb = c.maxFileKb)
    (hgi : m.config.respect_gitignore = c.respectGitignore)
    (had : arraysEqual c.adapters m.config.adapters_used = true) :
    hasConfigChanged c (some m) = false := by
  simp [hasConfigChanged, hin, hex, hkb, hgi, had, arraysEqual_self]

/-- `loadFileHashes` accepts a ledger with the current schema version. -/
theorem loadFileHashes_some (h : FileHashes)
    (hv : h.schema_version = FILE_HASHES_SCHEMA_VERSION) :
    loadFileHashes (some h) = some h := by
  simp only [loadFileHashes, hv]
  rw [if_neg (by decide), if_neg (by decide)]

/-- Substituting the value at key `k` does not affect `find?` at `k' ≠ k`. -/
theorem find?_map_subst (k k' : String) (v : FileHashEntry) (hne : k' ≠ k) :
    ∀ l : List (String × FileHashEntry),
      (l.map (fun kv => if kv.1 = k then (k, v) else kv)).find?
          (fun kv => kv.1 = k') =
        l.find? (fun kv => kv.1 = k') := by
  intro l
  induction l with
  | nil => rfl
  | cons kv' l ih =>
    by_cases hk : kv'.1 = k
    · have h1 : ¬ ((k, v).1 = k') := fun h => hne (h ▸ rfl)
      have h2 : ¬ (kv'.1 = k') := fun h => hne (by rw [← h, hk])
      simp only [List.map_cons, if_pos hk]
      rw [List.find?_cons_of_neg _ (by simpa using h1),
        List.find?_cons_of_neg _ (by simpa using h2)]
      exact ih
    · simp only [List.map_cons, if_neg hk]
      by_cases hk'' : kv'.1 = k'
      · rw [List.find?_cons_of_pos _ (by simpa using hk''),
          List.find?_cons_of_pos _ (by simpa using hk'')]
      · rw [List.find?_cons_of_neg _ (by simpa using hk''),
          List.find?_cons_of_neg _ (by simpa using hk'')]
        exact ih

/-- `objSet` makes the key's lookup hit the new value. -/
theorem find?_objSet_self (l : List (String × FileHashEntry)) (k : String)
    (v : FileHashEntry) :
    (objSet l k v).find? (fun kv => kv.1 = k) = some (k, v) := by
  unfold objSet
  by_cases hany : l.any (·.1 = k)
  · rw [if_pos hany]
    induction l with
    | nil => simp at hany
    | cons kv' l ih =>
      by_cases hk : kv'.1 = k
      · simp only [List.map_cons, if_pos hk]
        rw [List.find?_cons_of_pos _ (by simp)]
      · simp only [List.any_cons, Bool.or_eq_true, decide_eq_true_eq] at hany
        rcases hany with hany | hany
        · exact absurd hany hk
        · simp only [List.map_cons, if_neg hk]
          rw [List.find?_cons_of_neg _ (by simpa using hk)]
          exact ih (by simpa using hany)
  · rw [if_neg hany]
    induction l with
    | nil => simp [List.find?]
    | cons kv' l ih =>
      simp only [List.any_cons, Bool.or_eq_true, decide_eq_true_eq, not_or] at hany
      simp only [List.cons_append]
      rw [List.find?_cons_of_neg _ (by simpa using hany.1)]
      exact ih (by simpa using hany.2)

/-- `objSet` leaves other keys' lookups unchanged. -/
theorem find?_objSet_other (l : List (String × FileHashEntry)) (k k' : String)
    (v : FileHashEntry) (hne : k' ≠ k) :
    (objSet l k v).find? (fun kv => kv.1 = k') =
      l.find? (fun kv => kv.1 = k') := by
  unfold objSet
  by_cases hany : l.any (·.1 = k)
  · rw [if_pos hany]
    exact find?_map_subst k k' v hne l
  · rw [if_neg hany]
    induction l with
    | nil =>
      simp only [List.nil_append]
      rw [List.find?_cons_of_neg _
        (by simp only [decide_eq_true_eq]; exact fun h => hne h.symm)]
    | cons kv' l ih =>
      have hany' : ¬ (l.any fun x => decide (x.1 = k)) = true := by
        simp only [List.any_cons, Bool.or_eq_true] at hany
        exact fun h => hany (Or.inr h)
      simp only [List.cons_append]
      by_cases hk'' : kv'.1 = k'
      · rw [List.find?_cons_of_pos _ (by simpa using hk''),
          List.find?_cons_of_pos _ (by simpa using hk'')]
      · rw [List.find?_cons_of_neg _ (by simpa using hk''),
          List.find?_cons_of_neg _ (by simpa using hk'')]
        exact ih hany' 

/-- Deleted changes leave the ledger fold untouched. -/
theorem foldl_hashStep_deleted (w : World) (files : List DiscoveredFile) :
    ∀ (ds : List FileChange) (acc : List (String × FileHashEntry)),
      (∀ c ∈ ds, c.status = .deleted) →
      ds.foldl (hashStep w files) acc = acc := by
  intro ds
  induction ds with
  | nil => intro acc _; rfl
  | cons c rest ih =>
    intro acc h
    have hc : c.status = .deleted := h c (List.mem_cons_self c rest)
    simp only [List.foldl_cons, hashStep, if_pos hc]
    exact ih acc (fun c' hc' => h c' (List.mem_cons_of_mem c hc'))

/-- One ledger step for a change of a different path preserves a lookup. -/
theorem find?_hashStep_other (w : World) (files : List DiscoveredFile)
    (acc : List (String × FileHashEntry)) (c : FileChange) (p : String)
    (hne : c.path ≠ p) :
    (hashStep w files acc c).find? (fun kv => kv.1 = p) =
      acc.find? (fun kv => kv.1 = p) := by
  unfold hashStep
  split
  · rfl
  · cases hget : fileMapGet files c.path with
    | none => rfl
    | some file =>
      simp only
      exact find?_objSet_other acc c.path p _ (fun h => hne h.symm)

/-- The ledger fold over changes of foreign paths preserves a lookup. -/
theorem foldl_find?_other (w : World) (files : List DiscoveredFile) (p : String) :
    ∀ (cs : List FileChange) (acc : List (String × FileHashEntry)),
      (∀ c ∈ cs, c.path ≠ p) →
      (cs.foldl (hashStep w files) acc).find? (fun kv => kv.1 = p) =
        acc.find? (fun kv => kv.1 = p) := by
  intro cs
  induction cs with
  | nil => intro acc _; rfl
  | cons c rest ih =>
    intro acc h
    simp only [List.foldl_cons]
    rw [ih _ (fun c' hc' => h c' (List.mem_cons_of_mem c hc'))]
    exact find?_hashStep_other w files acc c p (h c (List.mem_cons_self c rest))

/-- A successful `fileMapGet` returns a member with the requested path. -/
theorem fileMapGet_mem (files : List DiscoveredFile) (p : String)
    (g : DiscoveredFile) (h : fileMapGet files p = some g) :
    g ∈ files ∧ g.path = p := by
  unfold fileMapGet at h
  refine ⟨List.mem_reverse.mp (List.mem_of_find?_eq_some h), ?_⟩
  have := List.find?_some h
  simpa using this

/-- With `Nodup` paths, `fileMapGet` returns the member itself. -/
theorem fileMapGet_self (files : List DiscoveredFile)
    (hnd : (files.map (·.path)).Nodup) (f : DiscoveredFile) (hf : f ∈ files) :
    fileMapGet files f.path = some f := by
  cases hget : fileMapGet files f.path with
  | none =>
    exfalso
    unfold fileMapGet at hget
    have : ∀ x ∈ files.reverse, ¬ (decide (x.path = f.path) = true) :=
      fun x hx => by
        intro hpx
        have := List.find?_eq_none.mp hget x hx
        exact this (by simpa using hpx)
    exact (this f (List.mem_reverse.mpr hf)) (by simp)
  | some g =>
    obtain ⟨hg, hgp⟩ := fileMapGet_mem files f.path g hget
    have := List.inj_on_of_nodup_map hnd hg hf (by simpa using hgp)
    exact congrArg some this

/-- Members of `objSet` are the new binding or old members. -/
theorem mem_objSet (l : List (String × FileHashEntry)) (k : String)
    (v : FileHashEntry) (kv : String × FileHashEntry)
    (h : kv ∈ objSet l k v) : kv = (k, v) ∨ kv ∈ l := by
  unfold objSet at h
  by_cases hany : l.any (·.1 = k)
  · rw [if_pos hany] at h
    obtain ⟨kv', hkv', hmap⟩ := List.mem_map.mp h
    by_cases hk : kv'.1 = k
    · rw [if_pos hk] at hmap
      exact Or.inl hmap.symm
    · rw [if_neg hk] at hmap
      exact Or.inr (hmap ▸ hkv')
  · rw [if_neg hany] at h
    rcases List.mem_append.mp h with h | h
    · exact Or.inr h
    · exact Or.inl (List.mem_singleton.mp h)

/-- Every key of the built ledger is a discovered path. -/
theorem keys_foldl_hashStep (w : World) (files : List DiscoveredFile) :
    ∀ (cs : List FileChange) (acc : List (String × FileHashEntry)),
      (∀ kv ∈ acc, kv.1 ∈ files.map (·.path)) →
      ∀ kv ∈ cs.foldl (hashStep w files) acc, kv.1 ∈ files.map (·.path) := by
  intro cs
  induction cs with
  | nil => intro acc hacc kv hkv; exact hacc kv hkv
  | cons c rest ih =>
    intro acc hacc kv hkv
    simp only [List.foldl_cons] at hkv
    refine ih _ ?_ kv hkv
    intro kv' hkv'
    unfold hashStep at hkv'
    split at hkv'
    · exact hacc kv' hkv'
    · cases hget : fileMapGet files c.path with
      | none => rw [hget] at hkv'; exact hacc kv' hkv'
      | some file =>
        rw [hget] at hkv'
        simp only at hkv'
        rcases mem_objSet _ _ _ _ hkv' with h | h
        · obtain ⟨hmem, hp⟩ := fileMapGet_mem files c.path file hget
          subst h
          exact List.mem_map.mpr ⟨file, hmem, hp⟩
        · exact hacc kv' h

/-- When every ledger key is a discovered path, no entry is deleted. -/
theorem deletedChanges_nil (ph : FileHashes) (files : List DiscoveredFile)
    (hkeys : ∀ kv ∈ ph.files, kv.1 ∈ files.map (·.path)) :
    deletedChanges (some ph) files = [] := by
  simp only [deletedChanges, List.map_eq_nil_iff, List.filter_eq_nil_iff]
  intro kv hkv
  have hmem := hkeys kv hkv
  have hcont : (files.map (fun x => x.path)).contains kv.1 = true :=
    List.elem_eq_true_of_mem hmem
  rw [hcont]
  decide

/-- The ledger built from per-file changes (plus deleted entries) maps every
discovered path to an entry carrying that file's current mtime and size. -/
theorem lookup_buildFileHashes (w : World) (files : List DiscoveredFile)
    (git : Option String) (chg : DiscoveredFile → FileChange)
    (ds : List FileChange) (hnd : (files.map (·.path)).Nodup)
    (hchgP : ∀ f, (chg f).path = f.path)
    (hchgS : ∀ f, (chg f).status ≠ .deleted)
    (hds : ∀ c ∈ ds, c.status = .deleted) :
    ∀ f ∈ files, ∃ h,
      (buildFileHashes w (files.map chg ++ ds) files git).lookup f.path =
        some ⟨h, f.mtime, f.size⟩ := by
  intro f hf
  have hself := fileMapGet_self files hnd f hf
  obtain ⟨l1, l2, hsplit⟩ := List.append_of_mem hf
  subst hsplit
  unfold buildFileHashes FileHashes.lookup
  simp only
  rw [List.foldl_append, foldl_hashStep_deleted w _ ds _ hds]
  rw [List.map_append, List.map_cons, List.foldl_append, List.foldl_cons]
  have hnotin : f.path ∉ l2.map (·.path) := by
    have hnd' := hnd
    rw [List.map_append, List.map_cons] at hnd'
    exact (List.nodup_cons.mp (List.nodup_append.mp hnd').2.1).1
  have hl2 : ∀ c ∈ l2.map chg, c.path ≠ f.path := by
    intro c hc
    obtain ⟨g, hg, rfl⟩ := List.mem_map.mp hc
    rw [hchgP g]
    intro hEq
    exact hnotin (List.mem_map.mpr ⟨g, hg, hEq⟩)
  rw [foldl_find?_other w _ f.path _ _ hl2]
  unfold hashStep
  rw [if_neg (hchgS f), hchgP f, hself]
  simp only
  rw [find?_objSet_self]
  exact ⟨_, rfl⟩

/-- No file is re-indexed when every change is unchanged or deleted. -/
theorem getFilesToIndex_nil (cs : List FileChange)
    (h : ∀ c ∈ cs, c.status = .unchanged ∨ c.status = .deleted) :
    getFilesToIndex cs = [] := by
  simp only [getFilesToIndex, List.map_eq_nil_iff, List.filter_eq_nil_iff]
  intro c hc
  rcases h c hc with hs | hs <;> simp [hs]

/-- The changed count is zero when every change is unchanged or deleted. -/
theorem getChangedCount_zero (cs : List FileChange)
    (h : ∀ c ∈ cs, c.status = .unchanged ∨ c.status = .deleted) :
    getChangedCount cs = 0 := by
  simp only [getChangedCount, List.length_eq_zero, List.filter_eq_nil_iff]
  intro c hc
  rcases h c hc with hs | hs <;> simp [hs]

/-- `analyzeOne` on a quick-check hit (ledger entry carrying the current
stats, stat oracle agreeing with the discovery record). -/
theorem analyzeOne_hit (w : World) (ph : FileHashes) (f : DiscoveredFile)
    (e : FileHashEntry) (hlook : ph.lookup f.path = some e)
    (hm : e.mtime = f.mtime) (hs : e.size = f.size)
    (hstat : w.statOf f.absolutePath = some ⟨f.mtime, f.size⟩) :
    analyzeOne w (some ph) f = (⟨f.path, .unchanged, some e.hash⟩, []) := by
  simp only [analyzeOne, Option.some_bind, hlook, quickChangeCheck, hstat]
  rw [if_pos ⟨hm.symm, hs.symm⟩]

/-- After an unchanged rebuild's change analysis, every verdict is
`unchanged` (discovered files) or `deleted` (none, when the ledger's keys are
all discovered). -/
theorem analyzeChanges_all_unchanged (w : World) (files : List DiscoveredFile)
    (ph : FileHashes)
    (hlook : ∀ f ∈ files, ∃ h, ph.lookup f.path = some ⟨h, f.mtime, f.size⟩)
    (hstat : ∀ f ∈ files, w.statOf f.absolutePath = some ⟨f.mtime, f.size⟩) :
    ∀ c ∈ analyzeChanges w files (some ph),
      c.status = .unchanged ∨ c.status = .deleted := by
  intro c hc
  simp only [analyzeChanges, analyzeChangesH, analyzeDiscovered_eq] at hc
  rcases List.mem_append.mp hc with hc | hc
  · obtain ⟨f, hf, rfl⟩ := List.mem_map.mp hc
    obtain ⟨h, hlk⟩ := hlook f hf
    rw [analyzeOne_hit w ph f ⟨h, f.mtime, f.size⟩ hlk rfl rfl (hstat f hf)]
    exact Or.inl rfl
  · simp only [deletedChanges, List.mem_map] at hc
    obtain ⟨kv, _, rfl⟩ := hc
    exact Or.inr rfl

/-- Upserting at a key makes its cache lookup the extended list. -/
theorem cacheGet_upsert_self (m : List (String × List Symbol)) (k : String)
    (v : Symbol) :
    cacheGet (cacheUpsert m k v) k = some ((cacheGet m k).getD [] ++ [v]) := by
  unfold cacheGet cacheUpsert
  by_cases hany : m.any (·.1 = k)
  · rw [if_pos hany]
    induction m with
    | nil => simp at hany
    | cons kv' l ih =>
      by_cases hk : kv'.1 = k
      · simp only [List.map_cons, if_pos hk]
        rw [List.find?_cons_of_pos _ (by simpa using hk),
          List.find?_cons_of_pos _ (by simpa using hk)]
        simp
      · simp only [List.any_cons, Bool.or_eq_true, decide_eq_true_eq] at hany
        rcases hany with h | h
        · exact absurd h hk
        · simp only [List.map_cons, if_neg hk]
          rw [List.find?_cons_of_neg _ (by simpa using hk),
            List.find?_cons_of_neg _ (by simpa using hk)]
          exact ih (by simpa using h)
  · rw [if_neg hany]
    induction m with
    | nil => simp [List.find?]
    | cons kv' l ih =>
      simp only [List.any_cons, Bool.or_eq_true, decide_eq_true_eq, not_or] at hany
      simp only [List.cons_append]
      rw [List.find?_cons_of_neg _ (by simpa using hany.1),
        List.find?_cons_of_neg _ (by simpa using hany.1)]
      exact ih (by simpa using hany.2)

/-- Upserting at a key leaves other keys' cache lookups unchanged. -/
theorem cacheGet_upsert_other (m : List (String × List Symbol)) (k k' : String)
    (v : Symbol) (hne : k' ≠ k) :
    cacheGet (cacheUpsert m k v) k' = cacheGet m k' := by
  unfold cacheGet cacheUpsert
  by_cases hany : m.any (·.1 = k)
  · rw [if_pos hany]
    clear hany
    induction m with
    | nil => rfl
    | cons kv' l ih =>
      by_cases hk : kv'.1 = k
      · have h2 : ¬ (kv'.1 = k') := fun h => hne (by rw [← h, hk])
        simp only [List.map_cons, if_pos hk]
        rw [List.find?_cons_of_neg _ (by simpa using (hk ▸ h2)),
          List.find?_cons_of_neg _ (by simpa using h2)]
        exact ih
      · simp only [List.map_cons, if_neg hk]
        by_cases hk'' : kv'.1 = k'
        · rw [List.find?_cons_of_pos _ (by simpa using hk''),
            List.find?_cons_of_pos _ (by simpa using hk'')]
        · rw [List.find?_cons_of_neg _ (by simpa using hk''),
            List.find?_cons_of_neg _ (by simpa using hk'')]
          exact ih
  · rw [if_neg hany]
    clear hany
    induction m with
    | nil =>
      simp only [List.nil_append]
      rw [List.find?_cons_of_neg _
        (by simp only [decide_eq_true_eq]; exact fun h => hne h.symm)]
    | cons kv' l ih =>
      simp only [List.cons_append]
      by_cases hk'' : kv'.1 = k'
      · rw [List.find?_cons_of_pos _ (by simpa using hk''),
          List.find?_cons_of_pos _ (by simpa using hk'')]
      · rw [List.find?_cons_of_neg _ (by simpa using hk''),
          List.find?_cons_of_neg _ (by simpa using hk'')]
        exact ih

/-- Members of an upsert: the fresh binding, an extended binding, or an
untouched one. -/
theorem mem_cacheUpsert (m : List (String × List Symbol)) (k : String)
    (v : Symbol) (kv : String × List Symbol) (h : kv ∈ cacheUpsert m k v) :
    kv = (k, [v]) ∨ (∃ old, (k, old) ∈ m ∧ kv = (k, old ++ [v])) ∨ kv ∈ m := by
  unfold cacheUpsert at h
  by_cases hany : m.any (·.1 = k)
  · rw [if_pos hany] at h
    obtain ⟨kv', hkv', hmap⟩ := List.mem_map.mp h
    by_cases hk : kv'.1 = k
    · rw [if_pos hk] at hmap
      refine Or.inr (Or.inl ⟨kv'.2, ?_, ?_⟩)
      · rw [← hk]; exact hkv'
      · rw [← hmap, hk]
    · rw [if_neg hk] at hmap
      exact Or.inr (Or.inr (hmap ▸ hkv'))
  · rw [if_neg hany] at h
    rcases List.mem_append.mp h with h | h
    · exact Or.inr (Or.inr h)
    · exact Or.inl (List.mem_singleton.mp h)

/-- Invariant of the cache built by `loadCachedSymbols`: every binding is
non-empty and homogeneous in its key. -/
theorem loadCached_inv :
    ∀ (syms : List Symbol) (m : List (String × List Symbol)),
      (∀ kv ∈ m, kv.2 ≠ [] ∧ ∀ s ∈ kv.2, s.file = kv.1) →
      ∀ kv ∈ syms.foldl (fun cache s => cacheUpsert cache s.file s) m,
        kv.2 ≠ [] ∧ ∀ s ∈ kv.2, s.file = kv.1 := by
  intro syms
  induction syms with
  | nil => intro m hm kv hkv; exact hm kv hkv
  | cons s rest ih =>
    intro m hm kv hkv
    simp only [List.foldl_cons] at hkv
    refine ih _ ?_ kv hkv
    intro kv' hkv'
    rcases mem_cacheUpsert m s.file s kv' hkv' with h | ⟨old, hold, h⟩ | h
    · subst h
      exact ⟨by simp, by simp⟩
    · subst h
      refine ⟨by simp, ?_⟩
      intro s' hs'
      rcases List.mem_append.mp hs' with hs' | hs'
      · exact (hm (s.file, old) hold).2 s' hs'
      · simp only [List.mem_singleton] at hs'
        subst hs'
        rfl
    · exact hm kv' h

/-- Cache values are non-empty and homogeneous. -/
theorem loadCachedSymbols_get (syms : List Symbol) (k : String)
    (l : List Symbol) (h : cacheGet (loadCachedSymbols syms) k = some l) :
    l ≠ [] ∧ ∀ s ∈ l, s.file = k := by
  unfold cacheGet at h
  obtain ⟨kv, hfind⟩ : ∃ kv, (loadCachedSymbols syms).find?
      (fun kv => kv.1 = k) = some kv := by
    cases hf : (loadCachedSymbols syms).find? (fun kv => kv.1 = k) with
    | none => rw [hf] at h; simp at h
    | some kv => exact ⟨kv, rfl⟩
  rw [hfind] at h
  simp only [Option.map_some', Option.some.injEq] at h
  have hmem := List.mem_of_find?_eq_some hfind
  have hkey : kv.1 = k := by simpa using List.find?_some hfind
  have := loadCached_inv syms [] (by simp) kv hmem
  rw [← hkey, ← h]
  exact ⟨this.1, this.2⟩

/-- Folding a homogeneous block into the cache appends it at its key. -/
theorem cacheGet_fold_block (p : String) :
    ∀ (B : List Symbol) (m : List (String × List Symbol)),
      (∀ s ∈ B, s.file = p) →
      cacheGet (B.foldl (fun cache s => cacheUpsert cache s.file s) m) p =
        match cacheGet m p with
        | some l => some (l ++ B)
        | none => if B = [] then none else some B := by
  intro B
  induction B with
  | nil =>
    intro m _
    cases h : cacheGet m p <;> simp [h]
  | cons s B' ih =>
    intro m hB
    have hsf : s.file = p := hB s (List.mem_cons_self s B')
    simp only [List.foldl_cons, hsf]
    rw [ih (cacheUpsert m p s) (fun s' hs' => hB s' (List.mem_cons_of_mem s hs'))]
    rw [cacheGet_upsert_self]
    cases h : cacheGet m p with
    | none => simp [h]
    | some l => simp [h]

/-- Folding foreign-keyed symbols leaves a cache lookup unchanged. -/
theorem cacheGet_fold_foreign (p : String) :
    ∀ (xs : List Symbol) (m : List (String × List Symbol)),
      (∀ s ∈ xs, s.file ≠ p) →
      cacheGet (xs.foldl (fun cache s => cacheUpsert cache s.file s) m) p =
        cacheGet m p := by
  intro xs
  induction xs with
  | nil => intro m _; rfl
  | cons s rest ih =>
    intro m h
    simp only [List.foldl_cons]
    rw [ih _ (fun s' hs' => h s' (List.mem_cons_of_mem s hs'))]
    exact cacheGet_upsert_other m s.file p s
      (fun hEq => h s (List.mem_cons_self s rest) hEq.symm)

/-- The cache of a stream `pre ++ B ++ post` at a key foreign to `pre` and
`post` and homogeneous for `B` is exactly `B` (absent when `B` is empty). -/
theorem cacheGet_tripartite (pre B post : List Symbol) (p : String)
    (hpre : ∀ s ∈ pre, s.file ≠ p) (hpost : ∀ s ∈ post, s.file ≠ p)
    (hB : ∀ s ∈ B, s.file = p) :
    cacheGet (loadCachedSymbols (pre ++ B ++ post)) p =
      if B = [] then none else some B := by
  unfold loadCachedSymbols
  rw [List.foldl_append, List.foldl_append]
  rw [cacheGet_fold_foreign p post _ hpost]
  rw [cacheGet_fold_block p B _ hB]
  rw [cacheGet_fold_foreign p pre [] hpre]
  rfl

/-- The adapter-symbol list a file's extraction settles on is empty (or the
file is unreadable).  Extraction is deterministic, so this is a property of
the file alone, independent of the threaded ID set. -/
def extractionEmpty (w : World) (baseline : String → String → List AdapterSym)
    (adapters : List AdapterModel) (filePath absolutePath : String) : Prop :=
  match chooseExtraction w baseline filePath absolutePath adapters with
  | none => True
  | some (_, adapterSymbols) => adapterSymbols = []

/-- ID assignment preserves the number of symbols. -/
theorem adapterSymbolsToSymbols_length :
    ∀ (asyms : List AdapterSym) (fp : String) (ids : List String),
      ((adapterSymbolsToSymbols asyms fp ids).1).length = asyms.length := by
  intro asyms
  induction asyms with
  | nil => intro fp ids; rfl
  | cons a rest ih =>
    intro fp ids
    simp only [adapterSymbolsToSymbols]
    simp [ih]

/-- Every assigned symbol carries the file path it was extracted from. -/
theorem adapterSymbolsToSymbols_file :
    ∀ (asyms : List AdapterSym) (fp : String) (ids : List String)
      (s : Symbol), s ∈ (adapterSymbolsToSymbols asyms fp ids).1 →
      s.file = fp := by
  intro asyms
  induction asyms with
  | nil => intro fp ids s hs; simp [adapterSymbolsToSymbols] at hs
  | cons a rest ih =>
    intro fp ids s hs
    simp only [adapterSymbolsToSymbols, List.mem_cons] at hs
    rcases hs with hs | hs
    · subst hs; rfl
    · exact ih fp _ s hs

/-- Extraction output is homogeneous in the file path. -/
theorem extractSymbolsFromFile_file (w : World)
    (baseline : String → String → List AdapterSym) (fp ap : String)
    (adapters : List AdapterModel) (ids : List String) :
    ∀ s ∈ (extractSymbolsFromFile w baseline fp ap adapters ids).1.1,
      s.file = fp := by
  intro s hs
  unfold extractSymbolsFromFile at hs
  cases hch : chooseExtraction w baseline fp ap adapters with
  | none => rw [hch] at hs; simp at hs
  | some pair =>
    obtain ⟨au, asyms⟩ := pair
    rw [hch] at hs
    simp only at hs
    exact adapterSymbolsToSymbols_file asyms fp ids s hs

/-- Extraction yields no symbols exactly when the settled adapter-symbol
list is empty (or the file is unreadable) — independent of the ID set. -/
theorem extractSymbolsFromFile_empty_iff (w : World)
    (baseline : String → String → List AdapterSym) (fp ap : String)
    (adapters : List AdapterModel) (ids : List String) :
    (extractSymbolsFromFile w baseline fp ap adapters ids).1.1 = [] ↔
      extractionEmpty w baseline adapters fp ap := by
  unfold extractSymbolsFromFile extractionEmpty
  cases hch : chooseExtraction w baseline fp ap adapters with
  | none => simp
  | some pair =>
    obtain ⟨au, asyms⟩ := pair
    simp only
    rw [← List.length_eq_zero, adapterSymbolsToSymbols_length,
      List.length_eq_zero]

/-- Skipped file (not in the discovery map): the loop state is unchanged. -/
theorem symbolStep_allSymbols_skip (w : World)
    (baseline : String → String → List AdapterSym)
    (adapters : List AdapterModel) (discovery : List DiscoveredFile)
    (fti : List String) (cache : List (String × List Symbol))
    (st : LoopState) (f : DiscoveredFile)
    (h : fileMapGet discovery f.path = none) :
    (symbolStep w baseline adapters discovery fti cache st f).allSymbols =
      st.allSymbols := by
  unfold symbolStep
  rw [h]

/-- Cache hit: the cached block is appended verbatim. -/
theorem symbolStep_allSymbols_cached (w : World)
    (baseline : String → String → List AdapterSym)
    (adapters : List AdapterModel) (discovery : List DiscoveredFile)
    (fti : List String) (cache : List (String × List Symbol))
    (st : LoopState) (f : DiscoveredFile) (g : DiscoveredFile)
    (cached : List Symbol)
    (h : fileMapGet discovery f.path = some g)
    (hc : (if !(fti.contains f.path) then cacheGet cache f.path else none) =
      some cached) :
    (symbolStep w baseline adapters discovery fti cache st f).allSymbols =
      st.allSymbols ++ cached := by
  unfold symbolStep
  simp only [h, hc]

/-- Cache miss: fresh extraction output is appended. -/
theorem symbolStep_allSymbols_extract (w : World)
    (baseline : String → String → List AdapterSym)
    (adapters : List AdapterModel) (discovery : List DiscoveredFile)
    (fti : List String) (cache : List (String × List Symbol))
    (st : LoopState) (f : DiscoveredFile) (g : DiscoveredFile)
    (syms : List Symbol) (au : Option String) (err : Option String)
    (ids : List String)
    (h : fileMapGet discovery f.path = some g)
    (hc : (if !(fti.contains f.path) then cacheGet cache f.path else none) =
      none)
    (hE : extractSymbolsFromFile w baseline f.path f.absolutePath adapters
      st.existingIds = ((syms, au, err), ids)) :
    (symbolStep w baseline adapters discovery fti cache st f).allSymbols =
      st.allSymbols ++ syms := by
  unfold symbolStep
  simp only [h, hc, hE]

/-- One step of the symbol loop appends a per-file block: homogeneous in the
file's path, empty exactly in the recorded degenerate cases. -/
theorem symbolStep_spec (w : World)
    (baseline : String → String → List AdapterSym)
    (adapters : List AdapterModel) (discovery : List DiscoveredFile)
    (fti : List String) (cache : List (String × List Symbol))
    (hcache : ∀ k l, cacheGet cache k = some l → l ≠ [] ∧ ∀ s ∈ l, s.file = k)
    (st : LoopState) (f : DiscoveredFile) :
    ∃ b : List Symbol,
      (symbolStep w baseline adapters discovery fti cache st f).allSymbols =
        st.allSymbols ++ b ∧
      (∀ s ∈ b, s.file = f.path) ∧
      (b = [] → (fileMapGet discovery f.path = none ∨
        extractionEmpty w baseline adapters f.path f.absolutePath)) ∧
      (fileMapGet discovery f.path = none → b = []) := by
  cases hget : fileMapGet discovery f.path with
  | none =>
    refine ⟨[], ?_, by simp, fun _ => Or.inl rfl, fun _ => rfl⟩
    rw [symbolStep_allSymbols_skip w baseline adapters discovery fti cache
      st f hget]
    simp
  | some g =>
    cases hcg : (if !(fti.contains f.path) then cacheGet cache f.path else none) with
    | some cached =>
      have hc : cacheGet cache f.path = some cached := by
        cases hne : fti.contains f.path with
        | true => rw [hne] at hcg; simp at hcg
        | false => rw [hne] at hcg; simpa using hcg
      obtain ⟨hne', hhomog⟩ := hcache f.path cached hc
      refine ⟨cached,
        symbolStep_allSymbols_cached w baseline adapters discovery fti cache
          st f g cached hget hcg,
        hhomog, fun h => absurd h hne', fun h => absurd h (by simp)⟩
    | none =>
      rcases hE : extractSymbolsFromFile w baseline f.path f.absolutePath
        adapters st.existingIds with ⟨⟨syms, au, err⟩, ids⟩
      refine ⟨syms,
        symbolStep_allSymbols_extract w baseline adapters discovery fti cache
          st f g syms au err ids hget hcg hE,
        ?_, ?_, fun h => absurd h (by simp)⟩
      · intro s hs
        have := extractSymbolsFromFile_file w baseline f.path f.absolutePath
          adapters st.existingIds s
        rw [hE] at this
        exact this hs
      · intro hnil
        refine Or.inr ?_
        have := (extractSymbolsFromFile_empty_iff w baseline f.path
          f.absolutePath adapters st.existingIds).mp
        rw [hE] at this
        exact this hnil

/-- Run-1 shape of the symbol loop: its output is a concatenation of
per-file blocks satisfying `symbolStep_spec`'s properties. -/
theorem loop_blocks (w : World)
    (baseline : String → String → List AdapterSym)
    (adapters : List AdapterModel) (discovery : List DiscoveredFile)
    (fti : List String) (cache : List (String × List Symbol))
    (hcache : ∀ k l, cacheGet cache k = some l → l ≠ [] ∧ ∀ s ∈ l, s.file = k) :
    ∀ (fs : List DiscoveredFile) (st : LoopState),
      ∃ bs : List (List Symbol),
        (symbolLoop w baseline adapters discovery fti cache fs st).allSymbols =
          st.allSymbols ++ bs.flatten ∧
        List.Forall₂ (fun (f : DiscoveredFile) (b : List Symbol) =>
          (∀ s ∈ b, s.file = f.path) ∧
          (b = [] → (fileMapGet discovery f.path = none ∨
            extractionEmpty w baseline adapters f.path f.absolutePath)) ∧
          (fileMapGet discovery f.path = none → b = [])) fs bs := by
  intro fs
  induction fs with
  | nil =>
    intro st
    exact ⟨[], by simp [symbolLoop], List.Forall₂.nil⟩
  | cons f rest ih =>
    intro st
    obtain ⟨b, hb, hhomog, hempty, hnone⟩ :=
      symbolStep_spec w baseline adapters discovery fti cache hcache st f
    obtain ⟨bs, hbs, hforall⟩ :=
      ih (symbolStep w baseline adapters discovery fti cache st f)
    refine ⟨b :: bs, ?_, List.Forall₂.cons ⟨hhomog, hempty, hnone⟩ hforall⟩
    rw [symbolLoop, hbs, hb]
    simp

/-- Right-hand members of a `Forall₂` pairing have left partners. -/
theorem forall₂_mem_right {α β : Type} {R : α → β → Prop} :
    ∀ {fs : List α} {bs : List β}, List.Forall₂ R fs bs →
      ∀ b ∈ bs, ∃ f ∈ fs, R f b := by
  intro fs bs h
  induction h with
  | nil => intro b hb; simp at hb
  | cons hR hrest ih =>
    intro b hb
    rcases List.mem_cons.mp hb with hb | hb
    · subst hb
      exact ⟨_, List.mem_cons_self _ _, hR⟩
    · obtain ⟨f, hf, hRf⟩ := ih b hb
      exact ⟨f, List.mem_cons_of_mem _ hf, hRf⟩

/-- The cache built from concatenated homogeneous blocks over distinct paths
resolves each path to its block. -/
theorem blocks_cache_aux :
    ∀ (fs : List DiscoveredFile) (bs : List (List Symbol))
      (pre : List Symbol),
      List.Forall₂ (fun f b => ∀ s ∈ b, s.file = f.path) fs bs →
      (fs.map (·.path)).Nodup →
      (∀ s ∈ pre, s.file ∉ fs.map (·.path)) →
      List.Forall₂ (fun f b =>
        cacheGet (loadCachedSymbols (pre ++ bs.flatten)) f.path =
          if b = [] then none else some b) fs bs := by
  intro fs
  induction fs with
  | nil =>
    intro bs pre h _ _
    cases h
    exact List.Forall₂.nil
  | cons f rest ih =>
    intro bs pre h hnd hpre
    cases h with
    | cons hfb hrest =>
      rename_i b bs'
      have hfnotin : f.path ∉ rest.map (·.path) := by
        rw [List.map_cons] at hnd
        exact (List.nodup_cons.mp hnd).1
      refine List.Forall₂.cons ?_ ?_
      · have hpre' : ∀ s ∈ pre, s.file ≠ f.path := by
          intro s hs
          have := hpre s hs
          simp only [List.map_cons, List.mem_cons, not_or] at this
          exact this.1
        have hpost : ∀ s ∈ bs'.flatten, s.file ≠ f.path := by
          intro s hs
          obtain ⟨b', hb', hsb'⟩ := List.mem_flatten.mp hs
          obtain ⟨g, hg, hRg⟩ := forall₂_mem_right hrest b' hb'
          rw [hRg s hsb']
          intro hEq
          exact hfnotin (List.mem_map.mpr ⟨g, hg, hEq⟩)
        have := cacheGet_tripartite pre b bs'.flatten f.path hpre' hpost hfb
        rw [List.flatten_cons, ← List.append_assoc]
        exact this
      · have hpre' : ∀ s ∈ pre ++ b, s.file ∉ rest.map (·.path) := by
          intro s hs
          rcases List.mem_append.mp hs with hs | hs
          · have := hpre s hs
            simp only [List.map_cons, List.mem_cons, not_or] at this
            exact this.2
          · rw [hfb s hs]
            exact hfnotin
        have := ih bs' (pre ++ b) hrest
          (by rw [List.map_cons] at hnd; exact (List.nodup_cons.mp hnd).2) hpre'
        rw [List.flatten_cons, ← List.append_assoc]
        exact this

/-- Run-2 replay: with nothing to re-index and the cache resolving each path
to its run-1 block, the loop reproduces the blocks verbatim. -/
theorem loop_replay (w : World)
    (baseline : String → String → List AdapterSym)
    (adapters : List AdapterModel) (discovery : List DiscoveredFile)
    (cache : List (String × List Symbol)) :
    ∀ (fs : List DiscoveredFile) (bs : List (List Symbol)) (st : LoopState),
      List.Forall₂ (fun f b =>
        cacheGet cache f.path = if b = [] then none else some b) fs bs →
      List.Forall₂ (fun (f : DiscoveredFile) (b : List Symbol) =>
        (b = [] → (fileMapGet discovery f.path = none ∨
          extractionEmpty w baseline adapters f.path f.absolutePath)) ∧
        (fileMapGet discovery f.path = none → b = [])) fs bs →
      (symbolLoop w baseline adapters discovery [] cache fs st).allSymbols =
        st.allSymbols ++ bs.flatten := by
  intro fs
  induction fs with
  | nil =>
    intro bs st h _
    cases h
    simp [symbolLoop]
  | cons f rest ih =>
    intro bs st h hP
    cases h with
    | cons hfb hrest =>
      rename_i b bs'
      cases hP with
      | cons hPfb hPrest =>
        rw [symbolLoop]
        have hif : ∀ o : Option (List Symbol),
            cacheGet cache f.path = o →
            (if !(([] : List String).contains f.path)
              then cacheGet cache f.path else none) = o := by
          intro o ho
          have hni : (([] : List String).contains f.path) = false := rfl
          rw [hni, Bool.not_false, if_pos rfl, ho]
        have hstep :
            (symbolStep w baseline adapters discovery [] cache st f).allSymbols =
              st.allSymbols ++ b := by
          cases hget : fileMapGet discovery f.path with
          | none =>
            rw [symbolStep_allSymbols_skip w baseline adapters discovery []
              cache st f hget, hPfb.2 hget]
            simp
          | some g =>
            cases hbnil : b with
            | nil =>
              rw [hbnil] at hfb
              simp only [if_pos rfl] at hfb
              rcases hE : extractSymbolsFromFile w baseline f.path
                f.absolutePath adapters st.existingIds with ⟨⟨syms, au, err⟩, ids⟩
              have hempty : extractionEmpty w baseline adapters f.path
                  f.absolutePath := by
                rcases hPfb.1 hbnil with hc | hc
                · rw [hget] at hc; exact absurd hc (by simp)
                · exact hc
              have hsyms : syms = [] := by
                have := (extractSymbolsFromFile_empty_iff w baseline f.path
                  f.absolutePath adapters st.existingIds).mpr hempty
                rw [hE] at this
                exact this
              rw [symbolStep_allSymbols_extract w baseline adapters discovery
                [] cache st f g syms au err ids hget (hif none hfb) hE, hsyms]
            | cons s' b' =>
              rw [hbnil] at hfb
              rw [if_neg (List.cons_ne_nil s' b')] at hfb
              rw [symbolStep_allSymbols_cached w baseline adapters discovery
                [] cache st f g b hget (hif (some b) (hbnil ▸ hfb)), hbnil]
        rw [ih bs' _ hrest hPrest, hstep]
        simp
/-- Each per-file verdict carries the file's path. -/
theorem analyzeOne_path (w : World) (ph : Option FileHashes)
    (f : DiscoveredFile) : (analyzeOne w ph f).1.path = f.path := by
  unfold analyzeOne
  repeat' split
  all_goals try rfl
  all_goals (simp only []; split) <;> rfl

/-- A per-file verdict is never `deleted`. -/
theorem analyzeOne_not_deleted (w : World) (ph : Option FileHashes)
    (f : DiscoveredFile) : (analyzeOne w ph f).1.status ≠ .deleted := by
  unfold analyzeOne
  repeat' split
  all_goals try simp
  all_goals split <;> simp

/-- Every deleted-scan verdict is `deleted`. -/
theorem deletedChanges_status (ph : Option FileHashes)
    (files : List DiscoveredFile) :
    ∀ c ∈ deletedChanges ph files, c.status = .deleted := by
  intro c hc
  unfold deletedChanges at hc
  cases ph with
  | none => simp at hc
  | some p =>
    simp only [List.mem_map] at hc
    obtain ⟨kv, _, rfl⟩ := hc
    rfl

/-- A build's change list decomposes into per-file verdicts (never `deleted`,
each carrying its file's path) followed by deleted-entry verdicts. -/
theorem changesOf_shape (opts : BuildOptions) (w : World)
    (discovery : List DiscoveredFile) (prev : IndexState) :
    ∃ (chg : DiscoveredFile → FileChange) (ds : List FileChange),
      changesOf opts w discovery prev = discovery.map chg ++ ds ∧
      (∀ f, (chg f).path = f.path) ∧
      (∀ f, (chg f).status ≠ ChangeStatus.deleted) ∧
      (∀ c ∈ ds, c.status = ChangeStatus.deleted) := by
  unfold changesOf
  cases hff : forceFullOf opts prev with
  | true =>
    refine ⟨fun f => ⟨f.path, .new, none⟩, [], by simp, fun f => rfl,
      fun f => by simp, by simp⟩
  | false =>
    refine ⟨fun f => (analyzeOne w (previousHashesOf opts prev) f).1,
      deletedChanges (previousHashesOf opts prev) discovery, ?_,
      analyzeOne_path w _, analyzeOne_not_deleted w _,
      deletedChanges_status _ _⟩
    simp only [Bool.false_eq_true, if_false, analyzeChanges, analyzeChangesH,
      analyzeDiscovered_eq]

/-- **C4** (amended).  Running the builder twice with no filesystem changes
yields `files_changed = 0` and byte-identical `symbols.jsonl` on the second
run, *provided* `force` is off and the configured adapter-name set matches
the adapter names the first run actually used (recorded in
`meta.config.adapters_used`) — in particular whenever the adapter list is
empty.  (The unamended claim fails when a configured adapter is never used:
`hasConfigChanged` then sees the name set differ from `adapters_used` and
forces a full re-index; see the counterexample.) -/
theorem c4_rebuild_amended (opts : BuildOptions) (w : World)
    (baseline : String → String → List AdapterSym)
    (parse : String → String → String → List ParsedTest)
    (discovery : List DiscoveredFile) (skipped : List (String × String))
    (gitCommit : Option String) (gen1 gen2 : String) (prev0 : IndexState)
    (hforce : opts.force = false)
    (hnd : (discovery.map (·.path)).Nodup)
    (hstat : ∀ f ∈ discovery, w.statOf f.absolutePath = some ⟨f.mtime, f.size⟩)
    (hadapters : arraysEqual (opts.adapters.map (·.name))
      ((buildIndexModel opts w baseline parse discovery skipped gitCommit gen1
        prev0).meta.config.adapters_used) = true) :
    (buildIndexModel opts w baseline parse discovery skipped gitCommit gen2
      (buildIndexModel opts w baseline parse discovery skipped gitCommit gen1
        prev0).nextState).files_changed = 0 ∧
    (buildIndexModel opts w baseline parse discovery skipped gitCommit gen2
      (buildIndexModel opts w baseline parse discovery skipped gitCommit gen1
        prev0).nextState).symbols =
      (buildIndexModel opts w baseline parse discovery skipped gitCommit gen1
        prev0).symbols := by
  set r1 := buildIndexModel opts w baseline parse discovery skipped gitCommit
    gen1 prev0 with hr1
  set S1 := r1.nextState with hS1
  have hmeta : S1.meta = some r1.meta := rfl
  have hfh : S1.fileHashes = some r1.fileHashes := rfl
  have hsyms1 : S1.symbols = r1.symbols := rfl
  have hsymsLoop : r1.symbols =
    (loopStateOf opts w baseline discovery prev0).allSymbols := rfl
  have hFH : r1.fileHashes =
    buildFileHashes w (changesOf opts w discovery prev0) discovery gitCommit :=
    rfl
  -- The second run sees no config change and loads the first run's ledger.
  have hcfg : configChangedOf opts S1 = false := by
    show hasConfigChanged (effectiveConfig opts) S1.meta = false
    rw [hmeta]
    exact hasConfigChanged_false (effectiveConfig opts) r1.meta rfl rfl rfl rfl
      hadapters
  have hff2 : forceFullOf opts S1 = false := by
    simp [forceFullOf, hforce, hcfg]
  have hprevH : previousHashesOf opts S1 = some r1.fileHashes := by
    unfold previousHashesOf
    simp only [hforce, Bool.false_eq_true, if_false, hfh]
    exact loadFileHashes_some r1.fileHashes rfl
  -- The first run's ledger maps each discovered path to its current stats.
  obtain ⟨chg, ds, hshape, hchgP, hchgS, hds⟩ :=
    changesOf_shape opts w discovery prev0
  have hlook : ∀ f ∈ discovery, ∃ h,
      r1.fileHashes.lookup f.path = some ⟨h, f.mtime, f.size⟩ := by
    intro f hf
    rw [hFH, hshape]
    exact lookup_buildFileHashes w discovery gitCommit chg ds hnd hchgP hchgS
      hds f hf
  -- Hence the second run's change analysis reports nothing to do.
  have hch2 : ∀ c ∈ changesOf opts w discovery S1,
      c.status = ChangeStatus.unchanged ∨ c.status = ChangeStatus.deleted := by
    unfold changesOf
    simp only [hff2, Bool.false_eq_true, if_false]
    rw [hprevH]
    exact analyzeChanges_all_unchanged w discovery r1.fileHashes hlook hstat
  have hfc : (buildIndexModel opts w baseline parse discovery skipped gitCommit
      gen2 S1).files_changed = 0 := by
    show filesChangedOf opts w discovery S1 = 0
    unfold filesChangedOf
    simp only [hff2, Bool.false_eq_true, if_false]
    exact getChangedCount_zero _ hch2
  have hfti : filesToIndexOf opts w discovery S1 = [] := by
    unfold filesToIndexOf
    simp only [hff2, Bool.false_eq_true, if_false]
    exact getFilesToIndex_nil _ hch2
  have hinc : isIncrementalOf opts S1 = true := by
    simp [isIncrementalOf, hff2, hprevH]
  have hcache2 : cachedSymbolsOf opts S1 = loadCachedSymbols r1.symbols := by
    unfold cachedSymbolsOf
    rw [hinc, if_pos rfl, hsyms1]
  -- Decompose the first run's symbol stream into per-file blocks.
  have hcache1 : ∀ k l, cacheGet (cachedSymbolsOf opts prev0) k = some l →
      l ≠ [] ∧ ∀ s ∈ l, s.file = k := by
    unfold cachedSymbolsOf
    split
    · intro k l h
      exact loadCachedSymbols_get _ k l h
    · intro k l h
      simp [cacheGet] at h
  obtain ⟨bs, heq1, hP⟩ := loop_blocks w baseline opts.adapters discovery
    (filesToIndexOf opts w discovery prev0) (cachedSymbolsOf opts prev0)
    hcache1 discovery ⟨[], [], [], []⟩
  have hsymsEq : r1.symbols = bs.flatten := by
    rw [hsymsLoop]
    unfold loopStateOf
    rw [heq1]
    simp
  have hhomog : List.Forall₂
      (fun (f : DiscoveredFile) (b : List Symbol) => ∀ s ∈ b, s.file = f.path)
      discovery bs :=
    List.Forall₂.imp (fun _ _ h => h.1) hP
  -- The cache the second run loads resolves each path to its run-1 block.
  have hcacheF : List.Forall₂ (fun (f : DiscoveredFile) (b : List Symbol) =>
      cacheGet (loadCachedSymbols r1.symbols) f.path =
        if b = [] then none else some b) discovery bs := by
    have h := blocks_cache_aux discovery bs [] hhomog hnd (by simp)
    rw [List.nil_append] at h
    rw [hsymsEq]
    exact h
  have hPred : List.Forall₂ (fun (f : DiscoveredFile) (b : List Symbol) =>
      (b = [] → (fileMapGet discovery f.path = none ∨
        extractionEmpty w baseline opts.adapters f.path f.absolutePath)) ∧
      (fileMapGet discovery f.path = none → b = [])) discovery bs :=
    List.Forall₂.imp (fun _ _ h => ⟨h.2.1, h.2.2⟩) hP
  have hreplay := loop_replay w baseline opts.adapters discovery
    (loadCachedSymbols r1.symbols) discovery bs ⟨[], [], [], []⟩ hcacheF hPred
  have hsy2 : (buildIndexModel opts w baseline parse discovery skipped
      gitCommit gen2 S1).symbols = r1.symbols := by
    show (loopStateOf opts w baseline discovery S1).allSymbols = r1.symbols
    unfold loopStateOf
    rw [hfti, hcache2, hreplay, hsymsEq]
    simp
  exact ⟨hfc, hsy2⟩

/-- Witness for **C4** (amended): the one-file world built twice with an
empty adapter list — the second run reports zero changed files and emits the
same symbol list. -/
theorem c4_rebuild_amended_witness :
    (buildIndexModel (mkOpts []) oneFileWorld extractSymbolsBaselineTJ noParse
      oneFileDiscovery [] none "t2"
      (buildIndexModel (mkOpts []) oneFileWorld extractSymbolsBaselineTJ
        noParse oneFileDiscovery [] none "t1"
        ⟨none, none, []⟩).nextState).files_changed = 0 ∧
    (buildIndexModel (mkOpts []) oneFileWorld extractSymbolsBaselineTJ noParse
      oneFileDiscovery [] none "t2"
      (buildIndexModel (mkOpts []) oneFileWorld extractSymbolsBaselineTJ
        noParse oneFileDiscovery [] none "t1"
        ⟨none, none, []⟩).nextState).symbols =
      (buildIndexModel (mkOpts []) oneFileWorld extractSymbolsBaselineTJ
        noParse oneFileDiscovery [] none "t1" ⟨none, none, []⟩).symbols :=
  c4_rebuild_amended (mkOpts []) oneFileWorld extractSymbolsBaselineTJ noParse
    oneFileDiscovery [] none "t1" "t2" ⟨none, none, []⟩
    (by decide) (by decide)
    (by intro f hf
        simp only [oneFileDiscovery, List.mem_singleton] at hf
        subst hf
        rfl)
    (by decide)
end ArkIndex
